import Mathlib

/-!
Formal model of the deterministic race-engine core of the `nines-back-end`
repository, together with proofs and refutations of its specification claims.

Conventions of the shallow embedding:

* JavaScript numbers are modelled by `ℚ` (exact rationals) where the source
  computes with IEEE doubles; every arithmetic step mirrors the source
  expression by expression.  Where the source computes `Math.floor(x * 0.3)`
  and the like on values small enough that the double product is exact
  (race durations are a few hundred ticks), the embedding uses the exact
  rational/natural-number counterpart.
* 32-bit integer operations (`>>> | ^ Math.imul`) are modelled on `ℕ`
  with explicit `% 2 ^ 32`.
* `hashStringToInt` in `src/race/rng.ts` takes the first four bytes of a
  SHA-256 digest from node's `crypto` module.  SHA-256 is external library
  code, so it is modelled as an arbitrary function `hash : String → ℕ`
  (consumed `% 2 ^ 32`); every theorem that depends on it either holds for
  all such functions or is instantiated at a concrete one in a situation
  where the code's behaviour does not depend on the hash value.
* JavaScript `Map`s keyed by strings are modelled as functions
  `String → Option _` (`Map.set` overwrites, `Map.get` misses give `none`);
  `Array.prototype.sort`, which is a stable sort driven by a comparator that
  is total on the data sorted here, is modelled by `List.insertionSort` with
  the non-strict relation induced by the comparator.
* Logging and metrics reads (`console.log`, `performance.now`, `Date`) are
  side channels that never flow into returned values; `performance.now` is
  modelled by an explicit environment so that this independence is provable.
-/

namespace Spec2Proof

/-! ## JavaScript numeric helpers (32-bit lane, `src/race/rng.ts`) -/

/-- Two to the thirty-two, the modulus of all JavaScript 32-bit bit operations. -/
def U32 : ℕ := 4294967296

/-- One raw 32-bit output of `makeMulberry32 seed` on its `k`-th call
(0-based).  The closure keeps `t += 0x6d2b79f5` as a float, but every use of
`t` passes through a 32-bit coercion, so the state is `(seed + (k+1)·C) % 2³²`.
The JS function returns this value divided by `4294967296`. -/
def mulberryVal (seed k : ℕ) : ℕ :=
  let t := (seed + (k + 1) * 0x6d2b79f5) % U32
  let r1 := ((t ^^^ (t >>> 15)) * (t ||| 1)) % U32
  let r2 := r1 ^^^ ((r1 + ((r1 ^^^ (r1 >>> 7)) * (r1 ||| 61)) % U32) % U32)
  r2 ^^^ (r2 >>> 14)

/-- The value in `[0,1)` returned by the `k`-th call of `makeMulberry32 seed`. -/
def mulberry (seed k : ℕ) : ℚ := (mulberryVal seed k : ℚ) / (U32 : ℚ)

/-- Lowercase hexadecimal rendering of `n % 2³²` left-padded with zeros to
eight characters, as `h.toString(16).padStart(8, '0')` produces for a `>>> 0`
value. -/
def hex8 (n : ℕ) : String :=
  let s := String.mk (Nat.toDigits 16 (n % U32))
  String.mk (List.replicate (8 - s.length) '0') ++ s

/-! ## Event catalog (`src/race/events/catalog.ts`) -/

/-- The `EventCategory` union type of the catalog. -/
inductive EventCategory where
  | powerup
  | combat
  | environmental
  | chaos
  | chaosMeta
  deriving DecidableEq, Repr

/-- An `EventDefinition` catalog entry. -/
structure EventDefinition where
  id : String
  category : EventCategory
  durationTicks : ℕ
  maxOccurrencesPerRace : ℕ
  maxConcurrent : ℕ
  conflictsWith : List String
  affectsMultipleHorses : Bool
  removesHorse : Bool
  exclusivePerHorse : Bool
  deriving DecidableEq, Repr

/-- The `EVENT_CATALOG` constant: all eighteen entries, in source order, with
the `D` duration/occurrence/concurrency shorthands expanded. -/
def EVENT_CATALOG : List EventDefinition :=
  [ ⟨"hook_shot", .combat, 20, 5, 3, ["temporary_shield", "rocket_boost"], false, false, true⟩,
    ⟨"bomb_throw", .combat, 60, 3, 2, ["temporary_shield"], true, false, false⟩,
    ⟨"position_swap", .combat, 20, 2, 1, ["magnet_pull", "rocket_boost"], true, false, true⟩,
    ⟨"samurai_duel", .combat, 60, 2, 1, ["smg_attack"], false, false, true⟩,
    ⟨"smg_attack", .combat, 60, 3, 2, ["samurai_duel", "temporary_shield"], true, false, false⟩,
    ⟨"summon_lightning_strike", .combat, 20, 3, 2, ["temporary_shield", "lightning_strike"], false, false, false⟩,
    ⟨"aerial_duel", .combat, 60, 2, 1, ["tornado", "meteor_strike"], true, false, false⟩,
    ⟨"ice_patch", .environmental, 120, 3, 2, ["earthquake", "tidal_wave"], true, false, false⟩,
    ⟨"earthquake", .environmental, 60, 2, 1, ["ice_patch", "tornado"], true, false, false⟩,
    ⟨"tidal_wave", .environmental, 60, 2, 1, ["ice_patch"], true, false, false⟩,
    ⟨"lightning_strike", .environmental, 20, 3, 2, ["summon_lightning_strike"], false, false, false⟩,
    ⟨"meteor_strike", .environmental, 20, 2, 1, ["aerial_duel", "rocket_boost"], true, false, false⟩,
    ⟨"tornado", .environmental, 60, 2, 1, ["earthquake", "aerial_duel"], true, false, false⟩,
    ⟨"rocket_boost", .powerup, 60, 3, 2, ["magnet_pull", "position_swap", "meteor_strike", "hook_shot"], false, false, true⟩,
    ⟨"temporary_shield", .powerup, 20, 5, 3, ["smg_attack", "bomb_throw", "summon_lightning_strike"], false, false, true⟩,
    ⟨"magnet_pull", .powerup, 20, 3, 2, ["rocket_boost", "position_swap"], true, false, false⟩,
    ⟨"ufo_abduction", .chaos, 20, 1, 1, ["temporary_shield", "rocket_boost", "aerial_duel"], false, true, true⟩,
    ⟨"chain_reaction", .chaos, 60, 2, 1, ["temporary_shield"], true, false, false⟩,
    ⟨"luck_charm", .chaosMeta, 120, 2, 2, [], false, false, true⟩ ]

/-! ## Event timeline (`src/race/events/timeline.ts`) -/

/-- An `EventInstance` record placed on the timeline. -/
structure EventInstance where
  id : String
  tickIndex : ℕ
  instanceId : String
  deriving DecidableEq, Repr

/-- The `EventTimeline` `ReadonlyMap`, represented as its entry list with
keys in ascending order (the shape in which `generateEventTimeline` freezes
and returns it). -/
abbrev EventTimeline : Type := List (ℕ × List EventInstance)

/-- Lookup on the timeline map: `timeline.get tick ?? []`. -/
def timelineGet (tl : EventTimeline) (tick : ℕ) : List EventInstance :=
  ((tl.find? (fun p => p.1 == tick)).map (·.2)).getD []

/-- The configurable `MIN_SPACING_TICKS` constant (ticks between identical
event ids). -/
def MIN_SPACING_TICKS : ℕ := 15

/-- A phase's category weights (`PhaseWeights`). -/
structure PhaseWeights where
  powerup : ℕ
  combat : ℕ
  environmental : ℕ
  chaos : ℕ
  deriving DecidableEq, Repr

/-- One of the three race phases. -/
inductive RacePhaseId where
  | early
  | mid
  | final
  deriving DecidableEq, Repr

/-- The declarative `PACING_CURVE` (default pacing model). -/
def PACING_CURVE : RacePhaseId → PhaseWeights
  | .early => ⟨3, 1, 1, 0⟩
  | .mid => ⟨2, 2, 1, 1⟩
  | .final => ⟨1, 3, 2, 3⟩

/-- A `RacePhase` range (`endTick` inclusive). -/
structure RacePhase where
  id : RacePhaseId
  startTick : ℕ
  endTick : ℕ
  deriving DecidableEq, Repr

/-- The phase ranges computed by `getRacePhases` with the default percent
boundaries `earlyEndPct = 0.3`, `midEndPct = 0.7`.  `Math.floor(total*0.3)`
and `Math.floor(total*0.7)` agree with the exact `total*3/10`, `total*7/10`
floors for the documented duration range, and `Math.max(0, e-1)` is truncated
subtraction on `ℕ`. -/
def getRacePhases (raceDurationTicks : ℕ) : List RacePhase :=
  let total := max 1 raceDurationTicks
  let earlyEnd := total * 3 / 10 - 1
  let midEnd := max earlyEnd (total * 7 / 10 - 1)
  let finalEnd := total - 1
  [⟨.early, 0, earlyEnd⟩, ⟨.mid, earlyEnd + 1, midEnd⟩, ⟨.final, midEnd + 1, finalEnd⟩]

/-- The phase containing `tick` (`getRacePhaseForTick`, default percents).
The tick is clamped to `[0, raceDurationTicks-1]` and the first matching
range is taken, `final` when none matches. -/
def getRacePhaseForTick (tick raceDurationTicks : ℕ) : RacePhaseId :=
  let clamped := min tick (raceDurationTicks - 1)
  (((getRacePhases raceDurationTicks).find?
      (fun p => decide (p.startTick ≤ clamped) && decide (clamped ≤ p.endTick))).map (·.id)).getD .final

/-- `getPhaseWeightsForTick` with the default pacing curve, default percents
and `rampMode = 'none'`: the weights of the phase containing the clamped
tick, `PACING_CURVE.final` when no range matches. -/
def getPhaseWeightsForTick (tick raceDurationTicks : ℕ) : PhaseWeights :=
  let clamped := min tick (raceDurationTicks - 1)
  ((((getRacePhases raceDurationTicks).find?
      (fun p => decide (p.startTick ≤ clamped) && decide (clamped ≤ p.endTick))).map
      (fun p => PACING_CURVE p.id)).getD (PACING_CURVE .final))

/-- Weight of a category under given phase weights; the
`CATEGORY_NORMALIZATION` table folds `chaos/meta` into `chaos`. -/
def weightOfCategory (w : PhaseWeights) : EventCategory → ℕ
  | .powerup => w.powerup
  | .combat => w.combat
  | .environmental => w.environmental
  | .chaos => w.chaos
  | .chaosMeta => w.chaos

/-- A scheduler `Candidate`.  The `normalizedScore`/`phase` fields of the
source only feed the optional debug logger and are omitted. -/
structure Candidate where
  id : String
  tickIndex : ℕ
  order : ℕ
  occ : ℕ
  defn : EventDefinition
  weight : ℕ
  deriving DecidableEq, Repr

/-- The candidates generated for one catalog entry: `maxOccurrencesPerRace`
draws, the `j`-th consuming the RNG call with index `seq0 + j` (the RNG call
counter and the `order` counter advance together).  The drawn value `r = v/2³²`
is mapped by `min(dur-1, max(0, floor(r*dur)))`; since `v·dur < 2⁵³` for
documented durations the double product is exact and the floor is `v*dur/2³²`
on `ℕ`. -/
def candidatesForDef (rng : ℕ → ℕ) (dur : ℕ) (d : EventDefinition) (seq0 : ℕ) : List Candidate :=
  (List.range d.maxOccurrencesPerRace).map (fun occ =>
    let v := rng (seq0 + occ) % U32
    let tickIndex := min (dur - 1) (v * dur / U32)
    { id := d.id, tickIndex := tickIndex, order := seq0 + occ, occ := occ, defn := d,
      weight := weightOfCategory (getPhaseWeightsForTick tickIndex dur) d.category })

/-- All candidates, catalog entries in order, with a running counter. -/
def buildCandidates (rng : ℕ → ℕ) (dur : ℕ) : List EventDefinition → ℕ → List Candidate
  | [], _ => []
  | d :: rest, seq0 =>
      candidatesForDef rng dur d seq0 ++ buildCandidates rng dur rest (seq0 + d.maxOccurrencesPerRace)

/-- The sort comparator of step 2 (`tickIndex` ascending, then `weight`
descending, then insertion `order` ascending) as a non-strict relation. -/
def candLE (a b : Candidate) : Bool :=
  decide (a.tickIndex < b.tickIndex) ||
    (a.tickIndex == b.tickIndex &&
      (decide (b.weight < a.weight) || (a.weight == b.weight && decide (a.order ≤ b.order))))

/-- The `conflictsWith` list the precomputed conflict map associates to `id`
(`Map.set` keeps the last catalog entry for a duplicated id). -/
def conflictsOf (catalog : List EventDefinition) (id : String) : Option (List String) :=
  catalog.foldl (fun acc d => if d.id = id then some d.conflictsWith else acc) none

/-- The deterministic instance id
`"evt-" ++ hex8 (hashStringToInt (seed ++ "|" ++ id ++ "|" ++ tick ++ "|" ++ occ))`. -/
def deterministicInstanceId (hash : String → ℕ) (seed : ℕ) (eventId : String)
    (tickIndex occ : ℕ) : String :=
  "evt-" ++ hex8 (hash (toString seed ++ "|" ++ eventId ++ "|" ++ toString tickIndex ++ "|" ++ toString occ) % U32)

/-- The mutable state of the placement loop: the `placed` map, its key list
in insertion order, and the `lastPlacedById` map. -/
structure PlacementState where
  placed : ℕ → List EventInstance
  placedTicks : List ℕ
  lastPlacedById : String → Option ℕ

/-- The empty placement state. -/
def initPlacement : PlacementState :=
  ⟨fun _ => [], [], fun _ => none⟩

/-- The minimum-spacing test of the placement loop: placement proceeds unless
an instance with this id was placed and `c.tickIndex - lastTick < 15`
(JavaScript subtraction, hence on `ℤ`). -/
def spacingOk (st : PlacementState) (c : Candidate) : Bool :=
  match st.lastPlacedById c.id with
  | none => true
  | some last => decide ((MIN_SPACING_TICKS : ℤ) ≤ (c.tickIndex : ℤ) - (last : ℤ))

/-- One iteration of the placement loop of `generateEventTimeline`:
weight-zero skip, minimum spacing, same-id concurrency cap, two-way conflict
check, then placement. -/
def placeCandidate (hash : String → ℕ) (seed : ℕ) (catalog : List EventDefinition)
    (st : PlacementState) (c : Candidate) : PlacementState :=
  if c.weight = 0 then st
  else if ¬ spacingOk st c then st
  else
    let atTick := st.placed c.tickIndex
    let sameIdCount := (atTick.filter (fun e => e.id == c.id)).length
    if c.defn.maxConcurrent ≤ sameIdCount then st
    else if atTick.any (fun e =>
        c.defn.conflictsWith.contains e.id ||
        ((conflictsOf catalog e.id).getD []).contains c.id) then st
    else
      let inst : EventInstance :=
        ⟨c.id, c.tickIndex, deterministicInstanceId hash seed c.id c.tickIndex c.occ⟩
      { placed := fun t => if t = c.tickIndex then atTick ++ [inst] else st.placed t
        placedTicks :=
          if c.tickIndex ∈ st.placedTicks then st.placedTicks else st.placedTicks ++ [c.tickIndex]
        lastPlacedById := fun id => if id = c.id then some c.tickIndex else st.lastPlacedById id }

/-- The timeline scheduler `generateEventTimeline` specialised, as at its
only call site, to the default options: candidates from a fresh
`makeMulberry32 (raceSeed >>> 0)` stream, sorted by the step-2 comparator,
folded through the placement loop, and emitted with keys ascending. -/
def generateEventTimeline (hash : String → ℕ) (raceSeed : ℕ) (raceDurationTicks : ℕ)
    (catalog : List EventDefinition) : EventTimeline :=
  let rng := fun k => mulberryVal (raceSeed % U32) k
  let cands := buildCandidates rng raceDurationTicks catalog 0
  let sorted := cands.insertionSort (fun a b => candLE a b = true)
  let final := sorted.foldl (placeCandidate hash raceSeed catalog) initPlacement
  (final.placedTicks.insertionSort (· ≤ ·)).map (fun t => (t, final.placed t))

/-! ## Effect applier (`src/race/events/effects.ts`) -/

/-- A per-horse per-tick entry of the base path matrix (`HorseBaseTick`). -/
structure HorseBaseTick where
  horseId : String
  position : ℚ
  lane : ℤ
  speed : ℚ
  deriving DecidableEq, Repr

/-- A per-horse per-tick entry of the final state matrix
(`FinalHorseStateTick`). -/
structure FinalHorseStateTick where
  horseId : String
  position : ℚ
  lane : ℤ
  speed : ℚ
  isStunned : Bool
  isRemoved : Bool
  activeEvents : List String
  deriving DecidableEq, Repr

/-- An `ActiveWindow`; `endTick = none` stands for the
`Number.POSITIVE_INFINITY` end used by `ufo_abduction`. -/
structure ActiveWindow where
  id : String
  startTick : ℕ
  endTick : Option ℕ
  deriving DecidableEq, Repr

/-- A `SwapWindow` of `position_swap`. -/
structure SwapWindow where
  withHorseId : String
  startTick : ℕ
  endTick : ℕ
  deriving DecidableEq, Repr

/-- The backward offset of `hook_shot` (`OFFSETS.hookShotBackward`). -/
def hookShotBackward : ℚ := 15

/-- The forward offset of `rocket_boost` (`OFFSETS.rocketBoostForward`). -/
def rocketBoostForward : ℚ := 20

/-- The global stun length of `chain_reaction` (`OFFSETS.chainStunDuration`). -/
def chainStunDuration : ℕ := 20

/-- The ids eligible for luck-charm rerouting (`NEGATIVE_EVENT_IDS`). -/
def NEGATIVE_EVENT_IDS : List String :=
  ["hook_shot", "bomb_throw", "ufo_abduction", "chain_reaction"]

/-- The label recorded for the global stun of `chain_reaction`
(`CHAIN_STUN_ID`). -/
def CHAIN_STUN_ID : String := "chain_stun"

/-- Placeholder entry for out-of-range list reads; all reads the source can
reach stay in range. -/
def defaultBase : HorseBaseTick := ⟨"", 0, 0, 0⟩

/-- Comparison of a tick against a window end (`tick < endTick` where
`none` is `+∞`). -/
def tickLtEnd (tick : ℕ) : Option ℕ → Bool
  | none => true
  | some e => decide (tick < e)

/-- The helper `pickIndex`: a deterministic index from `instanceId ++ salt`
(`hashStringToInt` output consumed modulo `count`, `0` when `count = 0`). -/
def pickIndex (hash : String → ℕ) (inst : EventInstance) (count : ℕ) (salt : String) : ℕ :=
  if count = 0 then 0 else (hash (inst.instanceId ++ salt) % U32) % count

/-- The helper `pickTwoDistinct` (`+1` skip avoids a collision). -/
def pickTwoDistinct (hash : String → ℕ) (inst : EventInstance) (count : ℕ) : ℕ × ℕ :=
  if count ≤ 1 then (0, 0)
  else
    let a := pickIndex hash inst count "A"
    let bRaw := pickIndex hash inst (count - 1) "B"
    (a, if a ≤ bRaw then bRaw + 1 else bRaw)

/-- The `catalogOrder` map (`forEach` with `Map.set`, so the last index wins
for a duplicated id). -/
def catalogOrderOf (catalog : List EventDefinition) (id : String) : Option ℕ :=
  catalog.enum.foldl (fun acc p => if p.2.id = id then some p.1 else acc) none

/-- The `defById` map (last catalog entry wins for a duplicated id). -/
def defById (catalog : List EventDefinition) (id : String) : Option EventDefinition :=
  catalog.foldl (fun acc d => if d.id = id then some d else acc) none

/-- JavaScript `Number.MAX_SAFE_INTEGER`, the sentinel for an event id
missing from the catalog-order map. -/
def MAX_SAFE_INTEGER : ℕ := 9007199254740991

/-- The per-tick event ordering (catalog order, ties by `instanceId`
`localeCompare`, modelled as code-point order on these ASCII ids). -/
def eventsHereLE (catalog : List EventDefinition) (a b : EventInstance) : Bool :=
  let ao := (catalogOrderOf catalog a.id).getD MAX_SAFE_INTEGER
  let bo := (catalogOrderOf catalog b.id).getD MAX_SAFE_INTEGER
  decide (ao < bo) || (ao == bo && decide (a.instanceId ≤ b.instanceId))

/-- The index a JavaScript `Map` built by ascending insertion associates to a
horse id in a tick row (the last matching index). -/
def jsMapIndexOf (row : List HorseBaseTick) (id : String) : Option ℕ :=
  row.enum.foldl (fun acc p => if p.2.horseId = id then some p.1 else acc) none

/-- The mutable state threaded through `applyEventEffects`. -/
structure EffState where
  stunUntil : String → Option ℕ
  removed : String → Bool
  windows : String → List ActiveWindow
  swaps : String → Option SwapWindow
  prevFinal : String → Option ℚ

/-- The helper `isEventActive` (window of the given id covering `tick`, or
with `onlyStartAtTick` just starting at `tick`). -/
def isEventActive (active : String → List ActiveWindow) (horseId id : String) (tick : ℕ)
    (onlyStartAtTick : Bool) : Bool :=
  let arr := active horseId
  if onlyStartAtTick then arr.any (fun w => w.id == id && w.startTick == tick)
  else arr.any (fun w => w.id == id && decide (w.startTick ≤ tick) && tickLtEnd tick w.endTick)

/-- The helper `markActive` (push one window onto a horse's list). -/
def markActive (active : String → List ActiveWindow) (horseId id : String)
    (startTick : ℕ) (endTick : Option ℕ) : String → List ActiveWindow :=
  fun h => if h = horseId then active horseId ++ [⟨id, startTick, endTick⟩] else active h

/-- The closure `rerouteIfLucky`: advance a luck-charm-protected target by
`+1 (mod N)` until a non-removed horse is found, falling back to the
original target. -/
def rerouteIfLucky (st : EffState) (baseAtTick : List HorseBaseTick) (tick : ℕ)
    (targetIdx : ℕ) : ℕ :=
  if baseAtTick.length ≤ targetIdx then targetIdx
  else
    let targetId := (baseAtTick.getD targetIdx defaultBase).horseId
    if ¬ isEventActive st.windows targetId "luck_charm" tick false then targetIdx
    else
      match (List.range' 1 (baseAtTick.length - 1)).find? (fun step =>
          !st.removed (baseAtTick.getD ((targetIdx + step) % baseAtTick.length) defaultBase).horseId) with
      | some step => (targetIdx + step) % baseAtTick.length
      | none => targetIdx

/-- The helper `applyEffect`: register the active window and, for
`bomb_throw`, extend the stun deadline. -/
def applyEffect (ev : EventInstance) (d : EventDefinition) (horseId : String) (tick : ℕ)
    (st : EffState) : EffState :=
  let endTick := tick + d.durationTicks
  let st1 := { st with windows := markActive st.windows horseId ev.id tick (some endTick) }
  if ev.id = "bomb_throw" then
    { st1 with stunUntil := fun h =>
        if h = horseId then some (max ((st1.stunUntil horseId).getD tick) endTick)
        else st1.stunUntil h }
  else st1

/-- Processing of a single event instance at its tick: the `position_swap`,
`ufo_abduction`, `chain_reaction`, multi-horse, and single-target branches of
the event loop. -/
def processEvent (hash : String → ℕ) (catalog : List EventDefinition)
    (baseAtTick : List HorseBaseTick) (tick : ℕ) (st : EffState) (ev : EventInstance) :
    EffState :=
  match defById catalog ev.id with
  | none => st
  | some d =>
    if ev.id = "position_swap" then
      if baseAtTick.length < 2 then st
      else
        let p := pickTwoDistinct hash ev baseAtTick.length
        let ha := (baseAtTick.getD p.1 defaultBase).horseId
        let hb := (baseAtTick.getD p.2 defaultBase).horseId
        if st.removed ha || st.removed hb then st
        else
          let endTick := tick + d.durationTicks
          let swaps1 := fun h =>
            if h = hb then some (SwapWindow.mk ha tick endTick)
            else if h = ha then some (SwapWindow.mk hb tick endTick)
            else st.swaps h
          let st1 := { st with swaps := swaps1 }
          let st2 := { st1 with windows := markActive st1.windows ha ev.id tick (some endTick) }
          { st2 with windows := markActive st2.windows hb ev.id tick (some endTick) }
    else if ev.id = "ufo_abduction" then
      let i0 := pickIndex hash ev baseAtTick.length ""
      let ix := rerouteIfLucky st baseAtTick tick i0
      let horseId := (baseAtTick.getD ix defaultBase).horseId
      let st1 := { st with removed := fun h => if h = horseId then true else st.removed h }
      { st1 with windows := markActive st1.windows horseId ev.id tick none }
    else if ev.id = "chain_reaction" then
      baseAtTick.foldl (fun s bt =>
        if s.removed bt.horseId then s
        else
          let endTick := tick + chainStunDuration
          let s1 := { s with stunUntil := fun h =>
              if h = bt.horseId then some (max ((s.stunUntil bt.horseId).getD tick) endTick)
              else s.stunUntil h }
          let s2 := { s1 with windows := markActive s1.windows bt.horseId CHAIN_STUN_ID tick (some endTick) }
          { s2 with windows := markActive s2.windows bt.horseId ev.id tick (some (tick + d.durationTicks)) }) st
    else if d.affectsMultipleHorses then
      baseAtTick.foldl (fun s bt =>
        if s.removed bt.horseId then s else applyEffect ev d bt.horseId tick s) st
    else
      let i0 := pickIndex hash ev baseAtTick.length ""
      let ix := if NEGATIVE_EVENT_IDS.contains ev.id then rerouteIfLucky st baseAtTick tick i0 else i0
      let horseId := (baseAtTick.getD ix defaultBase).horseId
      if st.removed horseId then st else applyEffect ev d horseId tick st

/-- All events of a tick, sorted as in the source, folded over the state. -/
def processEventsAt (hash : String → ℕ) (catalog : List EventDefinition)
    (timeline : EventTimeline) (baseAtTick : List HorseBaseTick) (tick : ℕ)
    (st : EffState) : EffState :=
  let eventsHere := (timelineGet timeline tick).insertionSort
    (fun a b => eventsHereLE catalog a b = true)
  eventsHere.foldl (processEvent hash catalog baseAtTick tick) st

/-- The per-horse body of the render loop at one tick, reading the
mid-loop `prevFinalPosition` map `pf`. -/
def renderOne (bp : List (List HorseBaseTick)) (tick : ℕ) (st : EffState)
    (pf : String → Option ℚ) (i : ℕ) : FinalHorseStateTick :=
  let baseAtTick := bp.getD tick []
  let base := baseAtTick.getD i defaultBase
  let horseId := base.horseId
  let wasRemoved := st.removed horseId
  let stunned := match st.stunUntil horseId with
    | none => false
    | some e => decide (tick < e)
  let basePrev := if 0 < tick then ((bp.getD (tick - 1) []).getD i defaultBase).position
    else base.position
  let baseDelta : ℚ := if 0 < tick then base.position - basePrev else 0
  let prevFinal := (pf horseId).getD base.position
  let offset : ℚ :=
    (if isEventActive st.windows horseId "hook_shot" tick true then -hookShotBackward else 0) +
    (if isEventActive st.windows horseId "rocket_boost" tick true then rocketBoostForward else 0)
  let moveDelta := if stunned then 0 else baseDelta
  let candidate0 : ℚ := max 0 (prevFinal + moveDelta + offset)
  let overlay : ℚ × ℤ :=
    match st.swaps horseId with
    | some sw =>
        if sw.startTick ≤ tick ∧ tick < sw.endTick then
          match jsMapIndexOf baseAtTick sw.withHorseId with
          | some otherIdx =>
              let otherPrevFinal := (pf sw.withHorseId).getD
                (((bp.getD (tick - 1) []).getD otherIdx defaultBase).position)
              let otherBasePrev := if 0 < tick then
                  ((bp.getD (tick - 1) []).getD otherIdx defaultBase).position
                else ((bp.getD 0 []).getD otherIdx defaultBase).position
              let otherBaseDelta : ℚ := if 0 < tick then
                  ((bp.getD tick []).getD otherIdx defaultBase).position - otherBasePrev
                else 0
              let otherStunned := match st.stunUntil sw.withHorseId with
                | none => false
                | some e => decide (tick < e)
              let otherMoveDelta := if otherStunned then 0 else otherBaseDelta
              let otherOffset : ℚ :=
                (if isEventActive st.windows sw.withHorseId "hook_shot" tick true then
                    -hookShotBackward else 0) +
                (if isEventActive st.windows sw.withHorseId "rocket_boost" tick true then
                    rocketBoostForward else 0)
              (max 0 (otherPrevFinal + otherMoveDelta + otherOffset),
               ((bp.getD tick []).getD otherIdx defaultBase).lane)
          | none => (candidate0, base.lane)
        else (candidate0, base.lane)
    | none => (candidate0, base.lane)
  let finalPos := if wasRemoved then prevFinal else overlay.1
  let finalSpeed : ℚ := if wasRemoved then 0 else base.speed
  let activeIds := ((st.windows horseId).filter
    (fun w => decide (w.startTick ≤ tick) && tickLtEnd tick w.endTick)).map (·.id)
  ⟨horseId, finalPos, overlay.2, finalSpeed, stunned, wasRemoved, activeIds⟩

/-- The render loop from horse index `i` for `n` further horses, threading
the `prevFinalPosition` map (each horse's final position is written before
the next horse is rendered). -/
def renderFrom (bp : List (List HorseBaseTick)) (tick : ℕ) (st : EffState) :
    ℕ → ℕ → (String → Option ℚ) → List FinalHorseStateTick × (String → Option ℚ)
  | _, 0, pf => ([], pf)
  | i, n + 1, pf =>
      let f := renderOne bp tick st pf i
      let r := renderFrom bp tick st (i + 1) n
        (fun h => if h = f.horseId then some f.position else pf h)
      (f :: r.1, r.2)

/-- The state after the event loop of tick `t` (the state the render loop of
tick `t` reads). -/
def effEventsStep (hash : String → ℕ) (catalog : List EventDefinition)
    (timeline : EventTimeline) (bp : List (List HorseBaseTick)) (tick : ℕ)
    (st : EffState) : EffState :=
  processEventsAt hash catalog timeline (bp.getD tick []) tick st

/-- One full tick of `applyEventEffects`: event loop, render loop, then the
expired-swap sweep. -/
def effTickStep (hash : String → ℕ) (catalog : List EventDefinition)
    (timeline : EventTimeline) (bp : List (List HorseBaseTick)) (tick : ℕ)
    (st : EffState) : List FinalHorseStateTick × EffState :=
  let st1 := effEventsStep hash catalog timeline bp tick st
  let r := renderFrom bp tick st1 0 (bp.getD tick []).length st1.prevFinal
  let swaps2 := fun h => match st1.swaps h with
    | some sw => if sw.endTick ≤ tick then none else some sw
    | none => none
  (r.1, { st1 with prevFinal := r.2, swaps := swaps2 })

/-- The initial state: empty maps, `prevFinalPosition` seeded from the
tick-0 row (`find ?.position ?? 0`) for exactly the tick-0 horse ids. -/
def initEffState (bp : List (List HorseBaseTick)) : EffState :=
  let row0 := bp.getD 0 []
  { stunUntil := fun _ => none
    removed := fun _ => false
    windows := fun _ => []
    swaps := fun _ => none
    prevFinal := fun h =>
      if h ∈ row0.map (·.horseId) then
        some (((row0.find? (fun x => x.horseId == h)).map (·.position)).getD 0)
      else none }

/-- The state at the start of tick `n` (after the first `n` full ticks of
the loop). -/
def effStateAt (hash : String → ℕ) (catalog : List EventDefinition)
    (timeline : EventTimeline) (bp : List (List HorseBaseTick)) (n : ℕ) : EffState :=
  (List.range n).foldl (fun st t => (effTickStep hash catalog timeline bp t st).2)
    (initEffState bp)

/-- Row `t` of the final state matrix. -/
def effRowAt (hash : String → ℕ) (catalog : List EventDefinition)
    (timeline : EventTimeline) (bp : List (List HorseBaseTick)) (t : ℕ) :
    List FinalHorseStateTick :=
  (effTickStep hash catalog timeline bp t (effStateAt hash catalog timeline bp t)).1

/-- The pure function `applyEventEffects`: the canonical final state matrix
from base paths, timeline and catalog (argument order as in the source, with
the modelled `hashStringToInt` in front). -/
def applyEventEffects (hash : String → ℕ) (bp : List (List HorseBaseTick))
    (timeline : EventTimeline) (catalog : List EventDefinition) :
    List (List FinalHorseStateTick) :=
  (List.range bp.length).map (effRowAt hash catalog timeline bp)

/-! ## Winner determination (`src/race/winner.ts`) -/

/-- A `WinnerResult` record. -/
structure WinnerResult where
  horseId : String
  tickIndex : ℕ
  timestampMs : ℚ
  deriving DecidableEq, Repr

/-- The horses gathered at one tick by `determineWinner`'s inner scan:
`position >= finishDistance && !isRemoved`, in row order. -/
def crossersAt (states : List FinalHorseStateTick) (finishDistance : ℚ) : List String :=
  (states.filter (fun s => decide (finishDistance ≤ s.position) && !s.isRemoved)).map (·.horseId)

/-- The tick scan of `determineWinner`: the first tick with a non-removed
crosser, together with the crossers of that tick. -/
def firstCrossing (finishDistance : ℚ) :
    List (List FinalHorseStateTick) → ℕ → Option (ℕ × List String)
  | [], _ => none
  | row :: rest, t =>
      let c := crossersAt row finishDistance
      if c.isEmpty then firstCrossing finishDistance rest (t + 1) else some (t, c)

/-- The race winner from the final state matrix (`determineWinner`): first
crossing tick, smallest horse id (`crossingIds.sort()` then index 0). -/
def determineWinner (matrix : List (List FinalHorseStateTick)) (finishDistance : ℚ)
    (tickDurationMs : ℚ) : Option WinnerResult :=
  (firstCrossing finishDistance matrix 0).map (fun p =>
    ⟨(p.2.insertionSort (· ≤ ·)).headD "", p.1, (p.1 : ℚ) * tickDurationMs⟩)

/-! ## Crossings and checksum (`src/race/raceEngine.ts`, `src/race/checksum.ts`) -/

/-- The fold of `computeCrossingsFromMatrix`: the first tick each horse is at
or past the finish and not removed, as an insertion-ordered association list
`(horseId, (timesMs, tickIndex))`. -/
def crossingsFold (finishDistance dtMs : ℚ) :
    List (List FinalHorseStateTick) → ℕ → List (String × ℚ × ℕ) → List (String × ℚ × ℕ)
  | [], _, acc => acc
  | row :: rest, t, acc =>
      let acc1 := row.foldl (fun a s =>
        if (a.find? (fun e => e.1 == s.horseId)).isSome then a
        else if decide (finishDistance ≤ s.position) && !s.isRemoved then
          a ++ [(s.horseId, ((t : ℚ) * dtMs, t))]
        else a) acc
      crossingsFold finishDistance dtMs rest (t + 1) acc1

/-- Crossing times and tick indices per horse from the canonical matrix
(`computeCrossingsFromMatrix`). -/
def computeCrossingsFromMatrix (matrix : List (List FinalHorseStateTick))
    (finishDistance dtMs : ℚ) : List (String × ℚ × ℕ) :=
  crossingsFold finishDistance dtMs matrix 0 []

/-- The fatal branch of `validateMotionUnitsAndSemantics`: some matrix entry
below `-1e-9` or above `finishLine + 1e-9` (the positive double `1e-9` is
modelled by the exact rational; the violations exhibited below overshoot by
whole meters, far beyond either reading of the tolerance). -/
def hardInvariantViolation (finishLine : ℚ) (matrix : List (List FinalHorseStateTick)) : Bool :=
  matrix.any (fun row => row.any (fun s =>
    decide (s.position < -(1 / 1000000000)) ||
    decide (finishLine + 1 / 1000000000 < s.position)))

/-- The serialization the event-timeline hash is taken over: ascending tick
keys, each tick's `id ++ "|" ++ instanceId` pairs sorted, joined by `,` and
`;` (`computeEventTimelineHash`). -/
def eventTimelineSerialization (tl : EventTimeline) : String :=
  let ticks := (tl.map (·.1)).insertionSort (· ≤ ·)
  String.intercalate ";" (ticks.map (fun t =>
    let ser := String.intercalate ","
      (((timelineGet tl t).map (fun e => e.id ++ "|" ++ e.instanceId)).insertionSort (· ≤ ·))
    toString t ++ ":" ++ ser))

/-- The value `computeRaceChecksum` serializes and hashes.  `JSON.stringify`
followed by SHA-256 is external library code; the checksum is modelled as an
abstract function of this payload value. -/
structure ChecksumPayload where
  raceId : String
  seed : String
  horseSeedsIds : List String
  horseSeedsNames : List String
  horseSeedsBaseSpeeds : List ℚ
  horseSeedsAccelVariances : List ℚ
  horseSeedsRngSeeds : List ℕ
  firstTickPositions : List ℚ
  lastTickPositions : List ℚ
  totalTickCount : ℕ
  finishOrder : List String
  finishTimesMs : List (String × ℚ)
  eventTimelineHash : Option String
  deriving DecidableEq

/-! ## Race engine precompute (`src/race/raceEngine.ts`) -/

/-- The `RaceConfig` record. -/
structure RaceConfig where
  trackLength : ℚ
  finishRatio : ℚ
  durationMs : ℚ
  dtMs : ℚ
  seed : String
  deriving DecidableEq, Repr

/-- A `HorseSeed` record. -/
structure HorseSeed where
  id : String
  name : String
  baseSpeed : ℚ
  accelVariance : ℚ
  rngSeed : ℕ
  deriving DecidableEq, Repr

/-- One per-horse entry of a precomputed tick. -/
structure PosEntry where
  horseId : String
  distance : ℚ
  deriving DecidableEq, Repr

/-- A `PrecomputedTick` record. -/
structure PrecomputedTick where
  timestampOffsetMs : ℚ
  positions : List PosEntry
  deriving DecidableEq, Repr

/-- `generateHorseSeeds` from horse index `i`, RNG call index `k`:
`baseSpeed ∈ 40–60`, `accelVariance ∈ 6–12`, `rngSeed = (r·2³²) >>> 0`. -/
def generateHorseSeedsAux (rng : ℕ → ℚ) : ℕ → ℕ → ℕ → List HorseSeed
  | 0, _, _ => []
  | n + 1, i, k =>
      { id := "horse-" ++ toString i
        name := "Horse " ++ toString (i + 1)
        baseSpeed := 40 + rng k * 20
        accelVariance := 6 + rng (k + 1) * 6
        rngSeed := (Int.toNat ⌊rng (k + 2) * (U32 : ℚ)⌋) % U32 } ::
        generateHorseSeedsAux rng n (i + 1) (k + 3)

/-- Deterministic horse seeds from a single RNG (`generateHorseSeeds`). -/
def generateHorseSeeds (numHorses : ℕ) (rng : ℕ → ℚ) : List HorseSeed :=
  generateHorseSeedsAux rng numHorses 0 0

/-- Easing helper `easeInQuad`. -/
def easeInQuad (t : ℚ) : ℚ := t * t

/-- Easing helper `easeOutQuad`. -/
def easeOutQuad (t : ℚ) : ℚ := t * (2 - t)

/-- Easing helper `easeInOutQuad`. -/
def easeInOutQuad (t : ℚ) : ℚ := if t < 1 / 2 then 2 * t * t else -1 + (4 - 2 * t) * t

/-- Easing helper `easeOutCubic` (`--t * t * t + 1`). -/
def easeOutCubic (t : ℚ) : ℚ := (t - 1) * (t - 1) * (t - 1) + 1

/-- Linear interpolation. -/
def lerpQ (a b t : ℚ) : ℚ := a + (b - a) * t

/-- The smooth speed curve of `buildSpeedCurve` as a function of the frame,
given the five RNG-drawn multipliers.  Control points sit at the exact
duration fractions 15/50/85/100 percent (`3/20`, `1/2`, `17/20` — exact for the
documented durations), each segment divides by `segment length || 1`, and
the value is clamped to `[max(20, bs−av), min(bs+2·av, 90)]`. -/
def buildSpeedCurve (h : HorseSeed) (totalFrames : ℕ) (m0 m1 m2 m3 m4 : ℚ) (f : ℕ) : ℚ :=
  let p1 := totalFrames * 3 / 20
  let p2 := totalFrames / 2
  let p3 := totalFrames * 17 / 20
  let p4 := totalFrames
  let raw :=
    if f ≤ p1 then
      let d : ℚ := if p1 = 0 then 1 else (p1 : ℚ)
      lerpQ m0 m1 (easeOutCubic ((f : ℚ) / d)) * h.baseSpeed
    else if f ≤ p2 then
      let d : ℚ := if p2 = p1 + 1 then 1 else (p2 : ℚ) - ((p1 : ℚ) + 1)
      lerpQ m1 m2 (easeInOutQuad (((f : ℚ) - ((p1 : ℚ) + 1)) / d)) * h.baseSpeed
    else if f ≤ p3 then
      let d : ℚ := if p3 = p2 + 1 then 1 else (p3 : ℚ) - ((p2 : ℚ) + 1)
      lerpQ m2 m3 (easeOutQuad (((f : ℚ) - ((p2 : ℚ) + 1)) / d)) * h.baseSpeed
    else
      let d : ℚ := if p4 = p3 + 1 then 1 else (p4 : ℚ) - ((p3 : ℚ) + 1)
      lerpQ m3 m4 (easeInQuad (((f : ℚ) - ((p3 : ℚ) + 1)) / d)) * h.baseSpeed
  min (min (h.baseSpeed + h.accelVariance * 2) 90) (max (max 20 (h.baseSpeed - h.accelVariance)) raw)

/-- The per-horse speed curves, horses in order, each consuming five RNG
calls for the multipliers `m0 ∈ 0.85–1.00`, `m1 ∈ 0.95–1.05`,
`m2 ∈ 0.85–0.98`, `m3 ∈ 1.00–1.10`, `m4 ∈ 1.05–1.20`. -/
def buildCurves (rng : ℕ → ℚ) (totalFrames : ℕ) : List HorseSeed → ℕ → List (HorseSeed × (ℕ → ℚ))
  | [], _ => []
  | h :: rest, k =>
      (h, buildSpeedCurve h totalFrames
        (85 / 100 + rng k * (15 / 100))
        (95 / 100 + rng (k + 1) * (1 / 10))
        (85 / 100 + rng (k + 2) * (13 / 100))
        (1 + rng (k + 3) * (1 / 10))
        (105 / 100 + rng (k + 4) * (15 / 100))) ::
        buildCurves rng totalFrames rest (k + 5)

/-- The mutable state of the integration loop of `generateRaceTicks`. -/
structure TickGenState where
  positions : String → Option ℚ
  finishTimes : List (String × ℚ)
  finishTicks : List (String × ℕ)
  finished : List String

/-- The per-horse body of one frame of `generateRaceTicks`: clamp finished
horses to the line, otherwise advance by `speed · dt`, interpolating the
exact crossing time inside the window that reaches the line. -/
def tickHorseStep (finishLine dtMs dtSec : ℚ) (frame : ℕ) (windowStartMs : ℚ)
    (acc : TickGenState × List PosEntry) (hc : HorseSeed × (ℕ → ℚ)) :
    TickGenState × List PosEntry :=
  let st := acc.1
  let h := hc.1
  if h.id ∈ st.finished then
    let positions1 := fun x => if x = h.id then some finishLine else st.positions x
    ({ st with positions := positions1 }, acc.2 ++ [⟨h.id, finishLine⟩])
  else
    let speed := hc.2 frame
    let before := (st.positions h.id).getD 0
    let advance := speed * dtSec
    let afterRaw := before + advance
    if before < finishLine ∧ finishLine ≤ afterRaw then
      let delta := max advance (1 / 1000000000000)
      let frac := max 0 (min 1 ((finishLine - before) / delta))
      let crossingMs := windowStartMs + frac * dtMs
      let positions1 := fun x => if x = h.id then some finishLine else st.positions x
      ({ positions := positions1
         finishTimes := st.finishTimes ++ [(h.id, crossingMs)]
         finishTicks := st.finishTicks ++ [(h.id, Int.toNat ⌊crossingMs / dtMs⌋)]
         finished := st.finished ++ [h.id] },
       acc.2 ++ [⟨h.id, finishLine⟩])
    else
      let newPos := min finishLine afterRaw
      let positions1 := fun x => if x = h.id then some newPos else st.positions x
      ({ st with positions := positions1 }, acc.2 ++ [⟨h.id, newPos⟩])

/-- The frame loop of `generateRaceTicks` over `remaining` frames starting at
`frame`. -/
def genFrames (finishLine dtMs dtSec : ℚ) (hcs : List (HorseSeed × (ℕ → ℚ))) :
    ℕ → ℕ → TickGenState → List PrecomputedTick × TickGenState
  | 0, _, st => ([], st)
  | remaining + 1, frame, st =>
      let tMs := (frame : ℚ) * dtMs
      let windowStartMs := if frame = 0 then 0 else ((frame : ℚ) - 1) * dtMs
      let stepped := hcs.foldl (tickHorseStep finishLine dtMs dtSec frame windowStartMs) (st, [])
      let r := genFrames finishLine dtMs dtSec hcs remaining (frame + 1) stepped.1
      (⟨tMs, stepped.2⟩ :: r.1, r.2)

/-- The finish-order comparator of `generateRaceTicks` as a non-strict
relation: interpolated crossing time ascending (absent time is `+∞`), then
final distance descending, then id. -/
def finishLE (times : List (String × ℚ)) (positions : String → Option ℚ) (a b : HorseSeed) : Bool :=
  let ta := (times.find? (fun e => e.1 == a.id)).map (·.2)
  let tb := (times.find? (fun e => e.1 == b.id)).map (·.2)
  let pa := (positions a.id).getD 0
  let pb := (positions b.id).getD 0
  let tie := decide (pb < pa) || (pa == pb && decide (a.id ≤ b.id))
  match ta, tb with
  | some x, some y => decide (x < y) || (x == y && tie)
  | some _, none => true
  | none, some _ => false
  | none, none => tie

/-- The result record of `generateRaceTicks`. -/
structure RaceTicksResult where
  ticks : List PrecomputedTick
  finishOrder : List String
  finishTimesMs : List (String × ℚ)
  winnerId : String
  finishTickIndex : List (String × ℕ)

/-- `generateRaceTicks`: speed curves (consuming the shared RNG from call
index `k0`), position integration with exact crossing interpolation over
`totalFrames + 1` frames, and the interpolated finish order. -/
def generateRaceTicks (rng : ℕ → ℚ) (k0 : ℕ) (horses : List HorseSeed)
    (config : RaceConfig) : RaceTicksResult :=
  let finishLine := config.trackLength * config.finishRatio
  let totalFrames := Int.toNat ⌊config.durationMs / config.dtMs⌋
  let dtSec := config.dtMs / 1000
  let hcs := buildCurves rng totalFrames horses k0
  let init : TickGenState := ⟨fun h => if h ∈ horses.map (·.id) then some 0 else none, [], [], []⟩
  let gen := genFrames finishLine config.dtMs dtSec hcs (totalFrames + 1) 0 init
  let st := gen.2
  let sorted := horses.insertionSort (fun a b => finishLE st.finishTimes st.positions a b = true)
  let finishOrder := sorted.map (·.id)
  { ticks := gen.1
    finishOrder := finishOrder
    finishTimesMs := st.finishTimes
    winnerId := finishOrder.headD ""
    finishTickIndex := st.finishTicks }

/-- Position of one horse at one tick as recorded in the precomputed ticks
(last entry wins, as for the per-tick `Map` of `buildBaseHorsePaths`). -/
def tickPosLookup (ticks : List PrecomputedTick) (t : ℕ) (id : String) : Option ℚ :=
  (ticks.getD t ⟨0, []⟩).positions.foldl (fun acc e => if e.horseId = id then some e.distance else acc) none

/-- `buildBaseHorsePaths`: the base path matrix from the precomputed ticks
(lanes by horse index, speed from the backward position difference). -/
def buildBaseHorsePaths (horses : List HorseSeed) (ticks : List PrecomputedTick)
    (config : RaceConfig) : List (List HorseBaseTick) :=
  let dtSec := config.dtMs / 1000
  (List.range ticks.length).map (fun t =>
    horses.enum.map (fun p =>
      let horseId := p.2.id
      let pos := (tickPosLookup ticks t horseId).getD 0
      let prevPos := (tickPosLookup ticks (t - 1) horseId).getD pos
      { horseId := horseId, position := pos, lane := (p.1 : ℤ),
        speed := max 0 ((pos - prevPos) / dtSec) }))

/-- The `PrecomputedRace` record assembled by `seedPrecomputedRace` (the
fields feeding broadcast, persistence and the checksum). -/
structure PrecomputedRecord where
  id : String
  config : RaceConfig
  horses : List HorseSeed
  ticks : List PrecomputedTick
  finishLine : ℚ
  seedInt : ℕ
  winnerId : String
  finishOrder : List String
  finishTimesMs : List (String × ℚ)
  finishTickIndex : List (String × ℕ)
  eventTimeline : EventTimeline
  finalHorseStateMatrix : List (List FinalHorseStateTick)
  checksum : String
  deriving DecidableEq

/-- The checksum payload of `computeRaceChecksum` for a record that carries
the canonical matrix (as every record built by `seedPrecomputedRace` does;
the `??` fallbacks to raw ticks are dead at that call site). -/
def checksumPayloadOf (shaStr : String → String) (pre : PrecomputedRecord) : ChecksumPayload :=
  { raceId := pre.id
    seed := pre.config.seed
    horseSeedsIds := pre.horses.map (·.id)
    horseSeedsNames := pre.horses.map (·.name)
    horseSeedsBaseSpeeds := pre.horses.map (·.baseSpeed)
    horseSeedsAccelVariances := pre.horses.map (·.accelVariance)
    horseSeedsRngSeeds := pre.horses.map (·.rngSeed)
    firstTickPositions := (pre.finalHorseStateMatrix.getD 0 []).map (·.position)
    lastTickPositions :=
      (pre.finalHorseStateMatrix.getD (pre.finalHorseStateMatrix.length - 1) []).map (·.position)
    totalTickCount := pre.finalHorseStateMatrix.length
    finishOrder := pre.finishOrder
    finishTimesMs := pre.finishTimesMs.insertionSort (fun a b => a.1 ≤ b.1)
    eventTimelineHash := some (shaStr (eventTimelineSerialization pre.eventTimeline)) }

/-- The wall-clock environment a run executes in: the successive
`performance.now()` readings.  They feed only the metrics trace. -/
structure PerfEnv where
  now : ℕ → ℚ

/-- The full precompute of `seedPrecomputedRace` with the fixed configuration
of its body (`trackLength 1000`, `finishRatio 1.0`, `durationMs 20000`,
`dtMs 50`): horse seeds and base ticks from one `makeMulberry32 seedInt`
stream, timeline from a fresh stream with the same seed, effects overlay,
the fatal validation of `validateMotionUnitsAndSemantics` (as an `Except`
error), matrix-derived winner and crossing times, and the checksum.  The
second component is the metrics trace of the `performance.now` readings,
the only place the environment is consumed. -/
def seedPrecomputedRaceE (sha : ChecksumPayload → String) (shaStr : String → String)
    (hash : String → ℕ) (seedStr : String) (seedInt : ℕ) (env : PerfEnv) :
    Except String PrecomputedRecord × List (String × ℚ) :=
  let raceId := "race-" ++ hex8 seedInt
  let config : RaceConfig := ⟨1000, 1, 20000, 50, seedStr⟩
  let rng := mulberry seedInt
  let horses := generateHorseSeeds 10 rng
  let rt := generateRaceTicks rng (3 * 10) horses config
  let metricsTicks := ("ticks", env.now 1 - env.now 0)
  let finishLine := config.trackLength * config.finishRatio
  let totalTicks := rt.ticks.length
  let eventTimeline := generateEventTimeline hash seedInt totalTicks EVENT_CATALOG
  let metricsTimeline := ("timeline", env.now 3 - env.now 2)
  let basePaths := buildBaseHorsePaths horses rt.ticks config
  let metricsBase := ("basePaths", env.now 5 - env.now 4)
  let matrix := applyEventEffects hash basePaths eventTimeline EVENT_CATALOG
  let metricsEffects := ("effects", env.now 7 - env.now 6)
  let result : Except String PrecomputedRecord :=
    if hardInvariantViolation finishLine matrix then
      Except.error "validateMotionUnitsAndSemantics: hard invariant violation"
    else
      let winnerFromMatrix :=
        match determineWinner matrix finishLine config.dtMs with
        | some w => if w.horseId = "" then rt.winnerId else w.horseId
        | none => rt.winnerId
      let crossings := computeCrossingsFromMatrix matrix finishLine config.dtMs
      let pre0 : PrecomputedRecord :=
        { id := raceId
          config := config
          horses := horses
          ticks := rt.ticks
          finishLine := finishLine
          seedInt := seedInt
          winnerId := winnerFromMatrix
          finishOrder := rt.finishOrder
          finishTimesMs := crossings.map (fun c => (c.1, c.2.1))
          finishTickIndex := crossings.map (fun c => (c.1, c.2.2))
          eventTimeline := eventTimeline
          finalHorseStateMatrix := matrix
          checksum := "" }
      Except.ok { pre0 with checksum := sha (checksumPayloadOf shaStr pre0) }
  (result, [metricsTicks, metricsTimeline, metricsBase, metricsEffects,
            ("freeze", env.now 9 - env.now 8)])

/-! ## Broadcast fabric (`src/websocket/wsServer.ts`) -/

/-- The `MAX_CATCHUP_TICKS` constant. -/
def MAX_CATCHUP_TICKS : ℕ := 50

/-- The `DEFAULT_CATCHUP_TICKS` constant. -/
def DEFAULT_CATCHUP_TICKS : ℕ := 10

/-- The `SYNC_COOLDOWN_MS` constant. -/
def SYNC_COOLDOWN_MS : ℕ := 2000

/-- One compact catch-up tick of an `activeRaces` record. -/
structure CatchTick where
  tickIndex : ℕ
  positions : List ℚ
  deriving DecidableEq, Repr

/-- An `activeRaces` record (catch-up snapshot plus the authoritative
`currentTickIndex`, `-1` before the first streamed tick). -/
structure ActiveRaceRec where
  ticks : List CatchTick
  startTime : ℚ
  currentTickIndex : ℤ
  deriving DecidableEq, Repr

/-- A parsed `sync:request` message. -/
structure SyncMsg where
  raceId : Option String
  fromTick : Option ℤ
  deriving DecidableEq, Repr

/-- A frame sent in reply to a `sync:request`. -/
inductive SyncOut where
  | errorFrame
  | catchupFrame (raceId : String) (startIndex : ℤ) (ticks : List CatchTick)
      (currentTickIndex : ℤ)
  | syncCompleteFrame (raceId : String) (currentTickIndex : ℤ)
  deriving DecidableEq, Repr

/-- Index clamping of `Array.prototype.slice` (negative indices count from
the end). -/
def jsSliceIdx (len : ℕ) (i : ℤ) : ℕ :=
  if i < 0 then (max 0 ((len : ℤ) + i)).toNat else min i.toNat len

/-- `Array.prototype.slice(s, e)`. -/
def jsSlice {α : Type} (l : List α) (s e : ℤ) : List α :=
  (l.take (jsSliceIdx l.length e)).drop (jsSliceIdx l.length s)

/-- The `sync:request` handler `handleSyncRequest` for one subscriber:
cooldown check against the subscriber's `lastSyncByClient` stamp (recorded
before any validation), raceId validation, `fromTick` clamping, and the
`catchup` plus `sync-complete` replies.  Returns the frames sent and the
subscriber's new stamp. -/
def handleSyncRequest (races : String → Option ActiveRaceRec) (lastSync : Option ℕ)
    (now : ℕ) (msg : SyncMsg) : List SyncOut × Option ℕ :=
  if (now : ℤ) - (lastSync.getD 0 : ℕ) < (SYNC_COOLDOWN_MS : ℤ) then ([], lastSync)
  else
    let lastSync1 := some now
    match msg.raceId with
    | none => ([.errorFrame], lastSync1)
    | some raceId =>
      if raceId = "" then ([.errorFrame], lastSync1)
      else
      match races raceId with
      | none => ([.errorFrame], lastSync1)
      | some rec =>
        let currentTickIndex := rec.currentTickIndex
        let startIndex : ℤ :=
          match msg.fromTick with
          | some fromTick =>
              let minAllowed := max 0 (currentTickIndex - (MAX_CATCHUP_TICKS : ℤ))
              max minAllowed (min fromTick currentTickIndex)
          | none => max 0 (currentTickIndex - (DEFAULT_CATCHUP_TICKS : ℤ))
        let ticksWindow := jsSlice rec.ticks startIndex (currentTickIndex + 1)
        ([.catchupFrame raceId startIndex ticksWindow currentTickIndex,
          .syncCompleteFrame raceId currentTickIndex], lastSync1)

/-- A subscriber's negotiated mode. -/
inductive WsMode where
  | plain
  | delta
  deriving DecidableEq, Repr

/-- A subscriber's connection preferences (`clientPrefs`). -/
structure ClientPrefs where
  binary : Bool
  mode : WsMode
  deriving DecidableEq, Repr

/-- One subscriber as the broadcast loop observes it: socket readiness
(`1` is OPEN), preferences, and outbound `bufferedAmount`. -/
structure WsClient where
  readyState : ℕ
  prefs : ClientPrefs
  bufferedAmount : ℕ
  deriving DecidableEq, Repr

/-- A message handed to `RaceWebSocketServer.broadcast`, reduced to the
fields the control flow reads: `type`, the raceId extraction sources, the
position payload and the tick index. -/
structure WsMessage where
  type : String
  dataRaceId : Option String
  dataId : Option String
  dataIsArray : Bool
  dataPositions : Option (List ℚ)
  dataTickIndex : Option ℤ
  deriving DecidableEq, Repr

/-- The per-race broadcast state touched by one `broadcast` call. -/
structure WsServerState where
  role : String
  seqByRace : String → Option ℕ
  lastKeyframeTickByRace : String → Option ℤ
  lastPositionsByRace : String → Option (List ℚ)
  droppedTickFrames : ℕ

/-- What one subscriber received from one `broadcast` call. -/
inductive SendOutcome where
  | skippedClosed
  | droppedBackpressure
  | sentBinary
  | sentKeyframe
  | sentDelta (deltas : List ℚ)
  | sentPlain
  deriving DecidableEq, Repr

/-- The `lastKeyframeTickByRace.get(raceId) || -Infinity` read: a missing
entry, and also a recorded keyframe tick `0` (zero is falsy), read as
`-Infinity`, here `none`. -/
def lastKeyframeOrNegInf (st : WsServerState) (raceId : String) : Option ℤ :=
  match st.lastKeyframeTickByRace raceId with
  | none => none
  | some v => if v = 0 then none else some v

/-- The keyframe-cadence test of the delta branch:
`!isFinite(lastKeyTick) || tickIndex - lastKeyTick >= KEYFRAME_INTERVAL_TICKS`. -/
def needKeyframe (kfi : ℤ) (st : WsServerState) (raceId : String) (tickIndex : ℤ) : Bool :=
  match lastKeyframeOrNegInf st raceId with
  | none => true
  | some lastKeyTick => decide (kfi ≤ tickIndex - lastKeyTick)

/-- The per-subscriber body of the broadcast loop, with `thr` the
`WS_BACKPRESSURE_THRESHOLD` and `kfi` the `KEYFRAME_INTERVAL_TICKS`
configuration values: skip non-open sockets, back-pressure-drop `race:tick`
frames, then the binary, keyframe/delta, and plain sends.  `raceId`,
`positions` and `tickIndex` are the values prepared before the loop. -/
def clientStep (thr : ℕ) (kfi : ℤ) (type : String) (raceId : Option String)
    (positions : Option (List ℚ)) (tickIndex : Option ℤ)
    (st : WsServerState) (c : WsClient) : WsServerState × SendOutcome :=
  if c.readyState ≠ 1 then (st, .skippedClosed)
  else if type = "race:tick" ∧ thr < c.bufferedAmount then
    ({ st with droppedTickFrames := st.droppedTickFrames + 1 }, .droppedBackpressure)
  else if c.prefs.binary = true ∧ type = "race:tick" ∧ positions.isSome then
    (st, .sentBinary)
  else
    match c.prefs.binary, c.prefs.mode, positions, tickIndex, raceId with
    | false, .delta, some ps, some ti, some rid =>
        if type = "race:tick" ∧ rid ≠ "" then
          if needKeyframe kfi st rid ti then
            let lastKf := fun r => if r = rid then some ti else st.lastKeyframeTickByRace r
            let lastPs := fun r => if r = rid then some ps else st.lastPositionsByRace r
            ({ st with lastKeyframeTickByRace := lastKf, lastPositionsByRace := lastPs },
             .sentKeyframe)
          else
            match st.lastPositionsByRace rid with
            | some lastPos =>
                if lastPos.length = ps.length then
                  let deltas := (ps.zip lastPos).map (fun q => q.1 - q.2)
                  let lastPs := fun r => if r = rid then some ps else st.lastPositionsByRace r
                  ({ st with lastPositionsByRace := lastPs }, .sentDelta deltas)
                else (st, .sentPlain)
            | none => (st, .sentPlain)
        else (st, .sentPlain)
    | _, _, _, _, _ => (st, .sentPlain)

/-- The loop of `broadcast` over the subscriber set, threading the per-race
maps (the keyframe bookkeeping a subscriber updates is seen by the
subscribers after it). -/
def broadcastFold (thr : ℕ) (kfi : ℤ) (type : String) (raceId : Option String)
    (positions : Option (List ℚ)) (tickIndex : Option ℤ) :
    List WsClient → WsServerState → WsServerState × List SendOutcome
  | [], st => (st, [])
  | c :: cs, st =>
      let r := clientStep thr kfi type raceId positions tickIndex st c
      let rest := broadcastFold thr kfi type raceId positions tickIndex cs r.1
      (rest.1, r.2 :: rest.2)

/-- `RaceWebSocketServer.broadcast`: raceId extraction
(`data.raceId ?? (Array.isArray(data) ? undefined : data.id)`), leader-only
sequencing of `race:tick` frames (which is also the only path that binds
`tickIndex`), then the per-subscriber loop.  Signing alters only payload
bytes and is not modelled. -/
def broadcast (thr : ℕ) (kfi : ℤ) (st : WsServerState) (msg : WsMessage)
    (clients : List WsClient) : WsServerState × List SendOutcome :=
  let raceId := match msg.dataRaceId with
    | some r => some r
    | none => if msg.dataIsArray then none else msg.dataId
  let isLeader := st.role = "leader"
  let seqSt :=
    match raceId with
    | some rid =>
        if isLeader ∧ msg.type = "race:tick" then
          { st with seqByRace := fun r =>
              if r = rid then some ((st.seqByRace rid).getD 0 + 1) else st.seqByRace r }
        else st
    | none => st
  let tickIndex :=
    if isLeader ∧ msg.type = "race:tick" ∧ raceId.isSome then msg.dataTickIndex else none
  broadcastFold thr kfi msg.type raceId msg.dataPositions tickIndex clients seqSt

/-- The `WS_BACKPRESSURE_THRESHOLD` default (bytes). -/
def WS_BACKPRESSURE_THRESHOLD : ℕ := 1000000

/-- The `KEYFRAME_INTERVAL_TICKS` default. -/
def KEYFRAME_INTERVAL_TICKS : ℤ := 20

/-! ## Claim theorems -/

/-- C1.  For every 32-bit seed and race configuration in the documented
ranges, two independent runs of the precompute pipeline (horse-seed
generation, base-tick generation via `generateRaceTicks`, event-timeline
generation via `generateEventTimeline`, and effect application via
`applyEventEffects`) produce identical `finalHorseStateMatrix`,
`eventTimeline`, `finishOrder`, `finishTimesMs` and `checksum` (all fields
of the returned record coincide): the runs may observe arbitrary and
different wall clocks, and the record — hence each of the five artifacts —
is a pure function of the seed, the configuration, and the fixed hash
functions alone. -/
theorem seedPrecomputedRace_deterministic (sha : ChecksumPayload → String)
    (shaStr : String → String) (hash : String → ℕ) (seedStr : String) (seedInt : ℕ)
    (env1 env2 : PerfEnv) :
    (seedPrecomputedRaceE sha shaStr hash seedStr seedInt env1).1 =
      (seedPrecomputedRaceE sha shaStr hash seedStr seedInt env2).1 := rfl

/-- C10.  A `sync:request` consumes the subscriber's catch-up cooldown even
when it is rejected for a missing, empty or unknown `raceId`: the stamp is
recorded before `raceId` validation, so a well-formed request arriving
within `SYNC_COOLDOWN_MS` of the invalid one is silently ignored (no
`catchup` frame, no frames at all) and leaves the stamp unchanged. -/
theorem sync_cooldown_consumed_by_invalid_request
    (races : String → Option ActiveRaceRec) (last0 : Option ℕ) (now1 now2 : ℕ)
    (msg1 msg2 : SyncMsg) (rid : String) (rec : ActiveRaceRec)
    (hcool : (SYNC_COOLDOWN_MS : ℤ) ≤ (now1 : ℤ) - (last0.getD 0 : ℕ))
    (hbad : msg1.raceId = none ∨ ∃ r, msg1.raceId = some r ∧ (r = "" ∨ races r = none))
    (hgood : msg2.raceId = some rid) (hrid : rid ≠ "") (hrec : races rid = some rec)
    (hfast : (now2 : ℤ) - (now1 : ℤ) < (SYNC_COOLDOWN_MS : ℤ)) :
    (handleSyncRequest races last0 now1 msg1).1 = [SyncOut.errorFrame] ∧
    (handleSyncRequest races last0 now1 msg1).2 = some now1 ∧
    handleSyncRequest races (some now1) now2 msg2 = ([], some now1) := by
  have hnc : ¬ ((now1 : ℤ) - (last0.getD 0 : ℕ) < (SYNC_COOLDOWN_MS : ℤ)) := by omega
  refine ⟨?_, ?_, ?_⟩
  · rcases hbad with h | ⟨r, hr, hcase⟩
    · simp [handleSyncRequest, hnc, h]
    · rcases hcase with he | hnone
      · simp [handleSyncRequest, hnc, hr, he]
      · by_cases he : r = ""
        · simp [handleSyncRequest, hnc, hr, he]
        · simp [handleSyncRequest, hnc, hr, he, hnone]
  · rcases hbad with h | ⟨r, hr, hcase⟩
    · simp [handleSyncRequest, hnc, h]
    · rcases hcase with he | hnone
      · simp [handleSyncRequest, hnc, hr, he]
      · by_cases he : r = ""
        · simp [handleSyncRequest, hnc, hr, he]
        · simp [handleSyncRequest, hnc, hr, he, hnone]
  · simp only [handleSyncRequest, Option.getD_some]
    rw [if_pos hfast]

/-- Witness for C10: an invalid request at `t = 5000` against an unknown
race id is answered with an error frame yet arms the cooldown, and a valid
request at `t = 6000` is then silently dropped. -/
theorem sync_cooldown_consumed_by_invalid_request_witness :
    (handleSyncRequest (fun r => if r = "race-1" then some ⟨[], 0, -1⟩ else none)
        none 5000 ⟨some "nope", none⟩).1 = [SyncOut.errorFrame] ∧
    (handleSyncRequest (fun r => if r = "race-1" then some ⟨[], 0, -1⟩ else none)
        none 5000 ⟨some "nope", none⟩).2 = some 5000 ∧
    handleSyncRequest (fun r => if r = "race-1" then some ⟨[], 0, -1⟩ else none)
        (some 5000) 6000 ⟨some "race-1", none⟩ = ([], some 5000) :=
  sync_cooldown_consumed_by_invalid_request
    (fun r => if r = "race-1" then some ⟨[], 0, -1⟩ else none)
    none 5000 6000 ⟨some "nope", none⟩ ⟨some "race-1", none⟩ "race-1" ⟨[], 0, -1⟩
    (by decide) (Or.inr ⟨"nope", rfl, Or.inr (by decide)⟩) rfl (by decide)
    (by decide) (by decide)

/-- Counterexample to C7 as stated: with `currentTickIndex = 50` and
`fromTick = 0` (which the clamp leaves at the lower bound
`currentTickIndex − MAX_CATCHUP_TICKS = 0`), the inclusive window
`slice(0, 51)` delivers 51 ticks — more than `MAX_CATCHUP_TICKS = 50`. -/
theorem catchup_can_exceed_max_ticks :
    (handleSyncRequest
        (fun r => if r = "r" then
          some ⟨(List.range 51).map (fun i => ⟨i, []⟩), 0, 50⟩ else none)
        none 5000 ⟨some "r", some 0⟩).1 =
      [SyncOut.catchupFrame "r" 0 ((List.range 51).map (fun i => ⟨i, []⟩)) 50,
       SyncOut.syncCompleteFrame "r" 50] ∧
    MAX_CATCHUP_TICKS < ((List.range 51).map (fun i => (⟨i, []⟩ : CatchTick))).length := by
  decide

/-- C7 (amended).  A catch-up response contains at most
`MAX_CATCHUP_TICKS + 1` ticks — the clamp bounds the window's start, and the
window is inclusive of `currentTickIndex`, so it holds one tick more than
`MAX_CATCHUP_TICKS` in the worst case — and, for an index-aligned snapshot
with `currentTickIndex ≥ −1` (the shape `seedPrecomputedRace` and the tick
driver maintain), no delivered tick exceeds the authoritative
`currentTickIndex`. -/
theorem catchup_window_bound (races : String → Option ActiveRaceRec)
    (lastSync : Option ℕ) (now : ℕ) (msg : SyncMsg) (rid : String) (rec : ActiveRaceRec)
    (hmsg : msg.raceId = some rid) (hrec : races rid = some rec)
    (hcur : -1 ≤ rec.currentTickIndex)
    (halign : ∀ k, k < rec.ticks.length → (rec.ticks.getD k ⟨0, []⟩).tickIndex = k)
    (raceId : String) (startIndex : ℤ) (ticks : List CatchTick) (cur : ℤ)
    (hmem : SyncOut.catchupFrame raceId startIndex ticks cur ∈
      (handleSyncRequest races lastSync now msg).1) :
    ticks.length ≤ MAX_CATCHUP_TICKS + 1 ∧
    ∀ ct ∈ ticks, (ct.tickIndex : ℤ) ≤ cur := by
  by_cases hcool : (now : ℤ) - (lastSync.getD 0 : ℕ) < (SYNC_COOLDOWN_MS : ℤ)
  · rw [handleSyncRequest, if_pos hcool] at hmem
    simp at hmem
  · rw [handleSyncRequest, if_neg hcool] at hmem
    rw [hmsg] at hmem
    dsimp only at hmem
    by_cases hempty : rid = ""
    · rw [if_pos hempty] at hmem
      simp at hmem
    · rw [if_neg hempty] at hmem
      rw [hrec] at hmem
      dsimp only at hmem
      simp only [List.mem_cons, List.mem_singleton, List.not_mem_nil, or_false] at hmem
      rcases hmem with hmem | hmem
      swap
      · exact absurd hmem (by simp)
      have hts : ticks = jsSlice rec.ticks
          (match msg.fromTick with
            | some fromTick =>
                max (max 0 (rec.currentTickIndex - (MAX_CATCHUP_TICKS : ℤ)))
                  (min fromTick rec.currentTickIndex)
            | none => max 0 (rec.currentTickIndex - (DEFAULT_CATCHUP_TICKS : ℤ)))
          (rec.currentTickIndex + 1) := by
        cases hmem
        rfl
      have hcureq : cur = rec.currentTickIndex := by
        cases hmem
        rfl
      set s : ℤ := match msg.fromTick with
        | some fromTick =>
            max (max 0 (rec.currentTickIndex - (MAX_CATCHUP_TICKS : ℤ)))
              (min fromTick rec.currentTickIndex)
        | none => max 0 (rec.currentTickIndex - (DEFAULT_CATCHUP_TICKS : ℤ)) with hs
      have hs0 : 0 ≤ s ∧ rec.currentTickIndex - (MAX_CATCHUP_TICKS : ℤ) ≤ s := by
        rw [hs]
        cases msg.fromTick <;> constructor <;> simp [MAX_CATCHUP_TICKS, DEFAULT_CATCHUP_TICKS] <;> omega
      constructor
      · rw [hts]
        unfold jsSlice jsSliceIdx
        simp only [List.length_drop, List.length_take]
        have h1 : ¬ (rec.currentTickIndex + 1 < 0) := by omega
        rw [if_neg h1, if_neg (by omega : ¬ s < 0)]
        have := hs0.1
        have := hs0.2
        unfold MAX_CATCHUP_TICKS at *
        omega
      · intro ct hct
        rw [hts] at hct
        unfold jsSlice jsSliceIdx at hct
        have h1 : ¬ (rec.currentTickIndex + 1 < 0) := by omega
        rw [if_neg h1, if_neg (by omega : ¬ s < 0)] at hct
        rcases List.mem_iff_getElem.mp hct with ⟨j, hj, hget⟩
        have hjlen := hj
        simp only [List.length_drop, List.length_take] at hjlen
        rw [List.getElem_drop, List.getElem_take] at hget
        have hidx : min s.toNat rec.ticks.length + j < rec.ticks.length := by omega
        have := halign (min s.toNat rec.ticks.length + j) hidx
        have hgd : rec.ticks.getD (min s.toNat rec.ticks.length + j) ⟨0, []⟩ =
            rec.ticks.get ⟨min s.toNat rec.ticks.length + j, hidx⟩ := by
          exact List.getD_eq_getElem rec.ticks _ hidx
        rw [hgd, List.get_eq_getElem] at this
        rw [hget] at this
        rw [this, hcureq]
        omega

/-- Witness for C7 (amended): the 51-tick window of the counterexample state
meets the amended bound and stays at or below `currentTickIndex = 50`. -/
theorem catchup_window_bound_witness :
    ((List.range 51).map (fun i => (⟨i, []⟩ : CatchTick))).length ≤ MAX_CATCHUP_TICKS + 1 ∧
    ∀ ct ∈ (List.range 51).map (fun i => (⟨i, []⟩ : CatchTick)), (ct.tickIndex : ℤ) ≤ 50 :=
  catchup_window_bound
    (fun r => if r = "r" then
      some ⟨(List.range 51).map (fun i => ⟨i, []⟩), 0, 50⟩ else none)
    none 5000 ⟨some "r", some 0⟩ "r" ⟨(List.range 51).map (fun i => ⟨i, []⟩), 0, 50⟩
    rfl (by decide) (by decide) (by decide)
    "r" 0 ((List.range 51).map (fun i => ⟨i, []⟩)) 50 (by decide)

/-- The default subscriber value used for out-of-range reads in statements. -/
def defaultClient : WsClient := ⟨0, ⟨false, .plain⟩, 0⟩

/-- One subscriber's outcome never depends on the threaded per-race maps as
far as back-pressure is concerned: `clientStep` reports
`droppedBackpressure` exactly for an open socket, a `race:tick` frame and a
buffer over the threshold. -/
theorem clientStep_dropped_iff (thr : ℕ) (kfi : ℤ) (type : String)
    (raceId : Option String) (positions : Option (List ℚ)) (tickIndex : Option ℤ)
    (st : WsServerState) (c : WsClient) :
    (clientStep thr kfi type raceId positions tickIndex st c).2 = .droppedBackpressure ↔
      (c.readyState = 1 ∧ type = "race:tick" ∧ thr < c.bufferedAmount) := by
  unfold clientStep
  split_ifs with h1 h2 h3
  · simp [h1]
  · simp_all
  · simp_all
  · constructor
    · intro h
      exfalso
      revert h
      split
      · split_ifs with h4 h5
        · simp
        · split
          · split_ifs with h6 <;> simp
          · simp
        · simp
      · simp
    · intro h
      exact absurd ⟨h.2.1, h.2.2⟩ h2

/-- The broadcast loop applied to a subscriber list distributes as one
`clientStep` per subscriber, and the `i`-th outcome is 'droppedBackpressure'
exactly under the conditions of `clientStep_dropped_iff`. -/
theorem broadcastFold_dropped_iff (thr : ℕ) (kfi : ℤ) (type : String)
    (raceId : Option String) (positions : Option (List ℚ)) (tickIndex : Option ℤ)
    (clients : List WsClient) (st : WsServerState) (i : ℕ) (hi : i < clients.length) :
    ((broadcastFold thr kfi type raceId positions tickIndex clients st).2.getD i .sentPlain
        = .droppedBackpressure) ↔
      ((clients.getD i defaultClient).readyState = 1 ∧ type = "race:tick" ∧
        thr < (clients.getD i defaultClient).bufferedAmount) := by
  induction clients generalizing st i with
  | nil => exact absurd hi (by simp)
  | cons c cs ih =>
      cases i with
      | zero =>
          simpa [broadcastFold] using
            clientStep_dropped_iff thr kfi type raceId positions tickIndex st c
      | succ j =>
          have hj : j < cs.length := by simpa using hi
          simpa [broadcastFold] using
            ih ((clientStep thr kfi type raceId positions tickIndex st c).1) j hj

/-- Counterexample to C8 as stated: a delta-mode subscriber whose buffer is
over the threshold is due a keyframe (`needKeyframe` holds: no keyframe was
recorded yet for the race), but the broadcast of the `race:tick` frame that
would have carried that keyframe is dropped for it wholesale, and the
dropped-tick-frames counter advances. -/
theorem backpressure_drops_due_keyframe :
    (broadcast WS_BACKPRESSURE_THRESHOLD KEYFRAME_INTERVAL_TICKS
        ⟨"leader", fun _ => none, fun _ => none, fun _ => none, 0⟩
        ⟨"race:tick", some "r", none, false, some [1, 2], some 137⟩
        [⟨1, ⟨false, .delta⟩, 2000000⟩]).2 = [SendOutcome.droppedBackpressure] ∧
    needKeyframe KEYFRAME_INTERVAL_TICKS
        ⟨"leader", fun _ => none, fun _ => none, fun _ => none, 0⟩ "r" 137 = true ∧
    (broadcast WS_BACKPRESSURE_THRESHOLD KEYFRAME_INTERVAL_TICKS
        ⟨"leader", fun _ => none, fun _ => none, fun _ => none, 0⟩
        ⟨"race:tick", some "r", none, false, some [1, 2], some 137⟩
        [⟨1, ⟨false, .delta⟩, 2000000⟩]).1.droppedTickFrames = 1 := by
  refine ⟨rfl, rfl, rfl⟩

/-- C8 (amended).  Back-pressure omission is exactly the omission of
`race:tick` frames for over-threshold open subscribers: a subscriber's
outcome in a broadcast is `droppedBackpressure` if and only if the frame's
type is `race:tick`, the socket is open, and the subscriber's buffered bytes
exceed the threshold.  In particular `start`, `finish`, `info` and `catchup`
frames are never back-pressure-dropped; but the dropped `race:tick` frame is
also the vehicle of delta-mode keyframes, so a due keyframe is not
attempted for a back-pressured subscriber (the counterexample above). -/
theorem backpressure_drop_characterization (thr : ℕ) (kfi : ℤ) (st : WsServerState)
    (msg : WsMessage) (clients : List WsClient) (i : ℕ) (hi : i < clients.length) :
    ((broadcast thr kfi st msg clients).2.getD i .sentPlain = .droppedBackpressure) ↔
      (msg.type = "race:tick" ∧ (clients.getD i defaultClient).readyState = 1 ∧
        thr < (clients.getD i defaultClient).bufferedAmount) := by
  unfold broadcast
  rw [broadcastFold_dropped_iff _ _ _ _ _ _ _ _ i hi]
  tauto

/-- Witness for C8 (amended): a `race:finish` frame to an over-threshold
subscriber is not dropped (both sides of the characterization are false),
applied at a concrete state. -/
theorem backpressure_drop_characterization_witness :
    ((broadcast WS_BACKPRESSURE_THRESHOLD KEYFRAME_INTERVAL_TICKS
        ⟨"leader", fun _ => none, fun _ => none, fun _ => none, 0⟩
        ⟨"race:finish", some "r", none, false, none, none⟩
        [⟨1, ⟨false, .plain⟩, 2000000⟩]).2.getD 0 .sentPlain = .droppedBackpressure) ↔
      (("race:finish" = "race:tick") ∧
        (([⟨1, ⟨false, .plain⟩, 2000000⟩] : List WsClient).getD 0 defaultClient).readyState = 1 ∧
        WS_BACKPRESSURE_THRESHOLD <
          (([⟨1, ⟨false, .plain⟩, 2000000⟩] : List WsClient).getD 0 defaultClient).bufferedAmount) :=
  backpressure_drop_characterization WS_BACKPRESSURE_THRESHOLD KEYFRAME_INTERVAL_TICKS
    ⟨"leader", fun _ => none, fun _ => none, fun _ => none, 0⟩
    ⟨"race:finish", some "r", none, false, none, none⟩
    [⟨1, ⟨false, .plain⟩, 2000000⟩] 0 (by decide)

/-- Counterexample to C9 as stated: subscriber `A` (delta mode) receives the
keyframe of tick 130; subscriber `B` then connects in delta mode while the
race is running, and the very first position-carrying frame broadcast to it
(tick 137) reaches it as a `race:delta` — not a keyframe — because the
keyframe cadence is tracked per race, not per subscriber. -/
theorem new_delta_subscriber_gets_delta_first :
    (broadcast WS_BACKPRESSURE_THRESHOLD KEYFRAME_INTERVAL_TICKS
        ⟨"leader", fun _ => none, fun _ => none, fun _ => none, 0⟩
        ⟨"race:tick", some "r", none, false, some [5, 6], some 130⟩
        [⟨1, ⟨false, .delta⟩, 0⟩]).2 = [SendOutcome.sentKeyframe] ∧
    (broadcast WS_BACKPRESSURE_THRESHOLD KEYFRAME_INTERVAL_TICKS
        (broadcast WS_BACKPRESSURE_THRESHOLD KEYFRAME_INTERVAL_TICKS
          ⟨"leader", fun _ => none, fun _ => none, fun _ => none, 0⟩
          ⟨"race:tick", some "r", none, false, some [5, 6], some 130⟩
          [⟨1, ⟨false, .delta⟩, 0⟩]).1
        ⟨"race:tick", some "r", none, false, some [7, 9], some 137⟩
        [⟨1, ⟨false, .delta⟩, 0⟩, ⟨1, ⟨false, .delta⟩, 0⟩]).2 =
      [SendOutcome.sentDelta [2, 3], SendOutcome.sentDelta [0, 0]] := by
  refine ⟨rfl, ?_⟩
  show [SendOutcome.sentDelta [(7 : ℚ) - 5, (9 : ℚ) - 6],
        SendOutcome.sentDelta [(7 : ℚ) - 7, (9 : ℚ) - 9]] = _
  norm_num

/-- A single delta-mode open subscriber under the threshold receives a
`race:tick` frame as a keyframe exactly when the per-race cadence demands
one. -/
theorem clientStep_keyframe_iff (thr : ℕ) (kfi : ℤ) (rid : String) (ps : List ℚ)
    (ti : ℤ) (st : WsServerState) (buf : ℕ) (hne : rid ≠ "") (hnl : ¬ thr < buf) :
    (clientStep thr kfi "race:tick" (some rid) (some ps) (some ti) st
        ⟨1, ⟨false, .delta⟩, buf⟩).2 = SendOutcome.sentKeyframe ↔
      needKeyframe kfi st rid ti = true := by
  unfold clientStep
  rw [if_neg (by simp), if_neg (by simp [hnl]), if_neg (by simp)]
  dsimp only
  rw [if_pos ⟨rfl, hne⟩]
  by_cases hneed : needKeyframe kfi st rid ti = true
  · rw [if_pos hneed]
    simp [hneed]
  · rw [if_neg hneed]
    simp only [hneed, iff_false]
    split
    · split_ifs <;> simp
    · simp

/-- C9 (amended).  Whether a delta-mode subscriber's first position-carrying
frame is a keyframe is decided by the per-race cadence alone, not by the
subscriber's history: for an open, non-back-pressured, non-binary delta
subscriber, the broadcast of a `race:tick` frame reaches it as a keyframe
if and only if `needKeyframe` holds for the race at that tick (no finite
keyframe tick recorded, or at least `KEYFRAME_INTERVAL_TICKS` ticks since).
A subscriber that connects between keyframes therefore receives deltas
before its first keyframe. -/
theorem delta_first_frame_keyframe_iff (thr : ℕ) (kfi : ℤ) (st : WsServerState)
    (msg : WsMessage) (c : WsClient) (rid : String) (ps : List ℚ) (ti : ℤ)
    (hrole : st.role = "leader") (htype : msg.type = "race:tick")
    (hrid : msg.dataRaceId = some rid) (hne : rid ≠ "")
    (hps : msg.dataPositions = some ps) (hti : msg.dataTickIndex = some ti)
    (hopen : c.readyState = 1) (hbp : c.bufferedAmount ≤ thr)
    (hbin : c.prefs.binary = false) (hmode : c.prefs.mode = .delta) :
    ((broadcast thr kfi st msg [c]).2 = [SendOutcome.sentKeyframe]) ↔
      needKeyframe kfi st rid ti = true := by
  obtain ⟨ty, drid, did, isArr, dpos, dti⟩ := msg
  simp only at htype hrid hps hti
  subst htype hrid hps hti
  obtain ⟨rs, prefs, buf⟩ := c
  obtain ⟨bin, mode⟩ := prefs
  simp only at hopen hbin hmode hbp
  subst hopen hbin hmode
  have hnl : ¬ (thr < buf) := Nat.not_lt.mpr hbp
  unfold broadcast
  dsimp only
  rw [hrole]
  rw [if_pos ⟨rfl, rfl, rfl⟩, if_pos ⟨rfl, rfl⟩]
  simp only [broadcastFold, List.cons.injEq, and_true]
  exact clientStep_keyframe_iff thr kfi rid ps ti
    ⟨"leader",
      fun r => if r = rid then some ((st.seqByRace rid).getD 0 + 1) else st.seqByRace r,
      st.lastKeyframeTickByRace, st.lastPositionsByRace, st.droppedTickFrames⟩
    buf hne hnl

/-- Witness for C9 (amended): at a state with no keyframe recorded the
first frame is indeed a keyframe, matching `needKeyframe = true`. -/
theorem delta_first_frame_keyframe_iff_witness :
    ((broadcast WS_BACKPRESSURE_THRESHOLD KEYFRAME_INTERVAL_TICKS
        ⟨"leader", fun _ => none, fun _ => none, fun _ => none, 0⟩
        ⟨"race:tick", some "r", none, false, some [5, 6], some 130⟩
        [⟨1, ⟨false, .delta⟩, 0⟩]).2 = [SendOutcome.sentKeyframe]) ↔
      needKeyframe KEYFRAME_INTERVAL_TICKS
        ⟨"leader", fun _ => none, fun _ => none, fun _ => none, 0⟩ "r" 130 = true :=
  delta_first_frame_keyframe_iff WS_BACKPRESSURE_THRESHOLD KEYFRAME_INTERVAL_TICKS
    ⟨"leader", fun _ => none, fun _ => none, fun _ => none, 0⟩
    ⟨"race:tick", some "r", none, false, some [5, 6], some 130⟩
    ⟨1, ⟨false, .delta⟩, 0⟩ "r" [5, 6] 130
    rfl rfl rfl (by decide) rfl rfl rfl (by decide) rfl rfl

/-! ### Structural lemmas about the effect applier -/

/-- Unfolding one tick of the state recursion. -/
theorem effStateAt_succ (hash : String → ℕ) (catalog : List EventDefinition)
    (timeline : EventTimeline) (bp : List (List HorseBaseTick)) (n : ℕ) :
    effStateAt hash catalog timeline bp (n + 1) =
      (effTickStep hash catalog timeline bp n (effStateAt hash catalog timeline bp n)).2 := by
  unfold effStateAt
  rw [List.range_succ, List.foldl_append]
  rfl

/-- Row `t` of the matrix returned by `applyEventEffects`. -/
theorem applyEventEffects_getD (hash : String → ℕ) (catalog : List EventDefinition)
    (timeline : EventTimeline) (bp : List (List HorseBaseTick)) (t : ℕ)
    (ht : t < bp.length) :
    (applyEventEffects hash bp timeline catalog).getD t [] =
      effRowAt hash catalog timeline bp t := by
  unfold applyEventEffects
  have hlt : t < ((List.range bp.length).map (effRowAt hash catalog timeline bp)).length := by
    simpa using ht
  rw [List.getD_eq_getElem _ _ hlt, List.getElem_map, List.getElem_range]

/-- A fold whose steps leave a projection of the state unchanged leaves it
unchanged. -/
theorem foldl_preserves {α β γ : Type} (f : α → β → α) (proj : α → γ)
    (hf : ∀ s b, proj (f s b) = proj s) :
    ∀ (l : List β) (st : α), proj (l.foldl f st) = proj st := by
  intro l
  induction l with
  | nil => intro st; rfl
  | cons b l ih => intro st; rw [List.foldl_cons, ih, hf]

/-- `applyEffect` does not touch the `prevFinalPosition` map. -/
theorem applyEffect_prevFinal (ev : EventInstance) (d : EventDefinition) (horseId : String)
    (tick : ℕ) (st : EffState) :
    (applyEffect ev d horseId tick st).prevFinal = st.prevFinal := by
  unfold applyEffect
  split_ifs <;> rfl

/-- The event loop does not touch the `prevFinalPosition` map. -/
theorem processEvent_prevFinal (hash : String → ℕ) (catalog : List EventDefinition)
    (baseAtTick : List HorseBaseTick) (tick : ℕ) (st : EffState) (ev : EventInstance) :
    (processEvent hash catalog baseAtTick tick st ev).prevFinal = st.prevFinal := by
  unfold processEvent
  cases defById catalog ev.id with
  | none => rfl
  | some d =>
      dsimp only
      split_ifs <;>
        first
          | rfl
          | exact applyEffect_prevFinal _ _ _ _ _
          | exact foldl_preserves _ EffState.prevFinal
              (by
                intro s bt
                split_ifs <;> first | rfl | exact applyEffect_prevFinal _ _ _ _ _)
              baseAtTick st

/-- The whole per-tick event loop preserves `prevFinalPosition`. -/
theorem effEventsStep_prevFinal (hash : String → ℕ) (catalog : List EventDefinition)
    (timeline : EventTimeline) (bp : List (List HorseBaseTick)) (tick : ℕ) (st : EffState) :
    (effEventsStep hash catalog timeline bp tick st).prevFinal = st.prevFinal := by
  unfold effEventsStep processEventsAt
  exact foldl_preserves _ EffState.prevFinal
    (fun s ev => processEvent_prevFinal hash catalog _ tick s ev) _ st

/-- The default entry for out-of-range reads of final-state rows in
statements. -/
def defaultFinal : FinalHorseStateTick := ⟨"", 0, 0, 0, false, false, []⟩

/-- The horse id at position `i` of the tick-`tick` base row. -/
def rowIdAt (bp : List (List HorseBaseTick)) (tick i : ℕ) : String :=
  ((bp.getD tick []).getD i defaultBase).horseId

/-- The render loop emits one entry per horse index. -/
theorem renderFrom_length (bp : List (List HorseBaseTick)) (tick : ℕ) (st : EffState) :
    ∀ (n i : ℕ) (pf : String → Option ℚ), ((renderFrom bp tick st i n pf).1).length = n := by
  intro n
  induction n with
  | zero => intro i pf; rfl
  | succ n ih =>
      intro i pf
      simp only [renderFrom]
      simpa using ih (i + 1) _

/-- Horse ids outside the rendered index range keep their
`prevFinalPosition` entry. -/
theorem renderFrom_snd_untouched (bp : List (List HorseBaseTick)) (tick : ℕ) (st : EffState) :
    ∀ (n i : ℕ) (pf : String → Option ℚ) (id : String),
    (∀ j, j < n → rowIdAt bp tick (i + j) ≠ id) →
    (renderFrom bp tick st i n pf).2 id = pf id := by
  intro n
  induction n with
  | zero => intro i pf id _; rfl
  | succ n ih =>
      intro i pf id h
      simp only [renderFrom]
      rw [ih (i + 1) _ id (fun j hj => by
        have := h (j + 1) (by omega)
        rwa [show i + (j + 1) = i + 1 + j by omega] at this)]
      have h0 := h 0 (by omega)
      exact if_neg (fun he => h0 he.symm)

/-- After the render loop, the `prevFinalPosition` entry of the `k`-th horse
is exactly the `k`-th emitted final position (for pairwise distinct horse ids
in the rendered range). -/
theorem renderFrom_snd_tracks (bp : List (List HorseBaseTick)) (tick : ℕ) (st : EffState) :
    ∀ (n i : ℕ) (pf : String → Option ℚ),
    (∀ j1 j2, j1 < j2 → j2 < n → rowIdAt bp tick (i + j1) ≠ rowIdAt bp tick (i + j2)) →
    ∀ k, k < n →
    (renderFrom bp tick st i n pf).2 (rowIdAt bp tick (i + k)) =
      some (((renderFrom bp tick st i n pf).1).getD k defaultFinal).position := by
  intro n
  induction n with
  | zero => intro i pf _ k hk; exact absurd hk (by omega)
  | succ n ih =>
      intro i pf hdisj k hk
      simp only [renderFrom]
      cases k with
      | zero =>
          rw [renderFrom_snd_untouched bp tick st n (i + 1) _ _ (fun j hj => by
            have := hdisj 0 (j + 1) (by omega) (by omega)
            rw [show i + (j + 1) = i + 1 + j by omega] at this
            simpa using fun he => this he.symm)]
          simp only [Nat.add_zero, List.getD_cons_zero]
          exact if_pos rfl
      | succ k =>
          rw [show i + (k + 1) = i + 1 + k by omega, List.getD_cons_succ]
          exact ih (i + 1) _ (fun j1 j2 hj hj2 => by
            have := hdisj (j1 + 1) (j2 + 1) (by omega) (by omega)
            rwa [show i + (j1 + 1) = i + 1 + j1 by omega,
                 show i + (j2 + 1) = i + 1 + j2 by omega] at this) k (by omega)

/-- When the rendered horse is not inside an active swap window, its entry
depends on the `prevFinalPosition` map only through its own id. -/
theorem renderOne_nopartner (bp : List (List HorseBaseTick)) (tick : ℕ) (st : EffState)
    (pf pf' : String → Option ℚ) (i : ℕ)
    (hag : pf ((bp.getD tick []).getD i defaultBase).horseId =
      pf' ((bp.getD tick []).getD i defaultBase).horseId)
    (hsw : ∀ sw, st.swaps ((bp.getD tick []).getD i defaultBase).horseId = some sw →
      ¬ (sw.startTick ≤ tick ∧ tick < sw.endTick)) :
    renderOne bp tick st pf i = renderOne bp tick st pf' i := by
  unfold renderOne
  dsimp only
  rw [hag]
  rcases h : st.swaps ((bp.getD tick []).getD i defaultBase).horseId with _ | sw
  · rfl
  · dsimp only
    rw [if_neg (hsw sw h), if_neg (hsw sw h)]

/-- Base positions read through the default paddings stay nonnegative when
every base entry is nonnegative. -/
theorem base_position_nonneg (bp : List (List HorseBaseTick))
    (hbp : ∀ row ∈ bp, ∀ b ∈ row, 0 ≤ b.position) (tick i : ℕ) :
    0 ≤ ((bp.getD tick []).getD i defaultBase).position := by
  rcases lt_or_ge tick bp.length with h | h
  · rcases lt_or_ge i (bp.getD tick []).length with h2 | h2
    · have hrow : bp.getD tick [] ∈ bp := by
        rw [List.getD_eq_getElem _ _ h]
        exact List.getElem_mem _
      have hb : (bp.getD tick []).getD i defaultBase ∈ bp.getD tick [] := by
        rw [List.getD_eq_getElem _ _ h2]
        exact List.getElem_mem _
      exact hbp _ hrow _ hb
    · rw [List.getD_eq_default _ _ h2]
      exact le_refl 0
  · rw [List.getD_eq_default _ _ h]
    simp only [List.getD]
    exact le_refl 0

/-- Each rendered final position is nonnegative (removed horses freeze a
nonnegative value; everything else is `max 0 ⬝`). -/
theorem renderOne_position_nonneg (bp : List (List HorseBaseTick)) (tick : ℕ)
    (st : EffState) (pf : String → Option ℚ) (i : ℕ)
    (hbp : ∀ row ∈ bp, ∀ b ∈ row, 0 ≤ b.position)
    (hpf : ∀ id q, pf id = some q → 0 ≤ q) :
    0 ≤ (renderOne bp tick st pf i).position := by
  unfold renderOne
  dsimp only
  by_cases hr : st.removed ((bp.getD tick []).getD i defaultBase).horseId = true
  · rw [if_pos hr]
    rcases hq : pf ((bp.getD tick []).getD i defaultBase).horseId with _ | q
    · exact base_position_nonneg bp hbp tick i
    · exact hpf _ q hq
  · rw [if_neg hr]
    rcases h : st.swaps ((bp.getD tick []).getD i defaultBase).horseId with _ | sw
    · exact le_max_left 0 _
    · dsimp only
      by_cases hc : sw.startTick ≤ tick ∧ tick < sw.endTick
      · rw [if_pos hc]
        rcases h2 : jsMapIndexOf (bp.getD tick []) sw.withHorseId with _ | oi
        · exact le_max_left 0 _
        · exact le_max_left 0 _
      · rw [if_neg hc]
        exact le_max_left 0 _

/-- The render loop keeps every `prevFinalPosition` entry nonnegative. -/
theorem renderFrom_snd_nonneg (bp : List (List HorseBaseTick)) (tick : ℕ) (st : EffState)
    (hbp : ∀ row ∈ bp, ∀ b ∈ row, 0 ≤ b.position) :
    ∀ (n i : ℕ) (pf : String → Option ℚ),
    (∀ id q, pf id = some q → 0 ≤ q) →
    ∀ id q, (renderFrom bp tick st i n pf).2 id = some q → 0 ≤ q := by
  intro n
  induction n with
  | zero => intro i pf hpf id q hq; exact hpf id q hq
  | succ n ih =>
      intro i pf hpf id q hq
      simp only [renderFrom] at hq
      refine ih (i + 1) _ ?_ id q hq
      intro id' q' hq'
      by_cases he : id' = (renderOne bp tick st pf i).horseId
      · rw [if_pos he] at hq'
        cases hq'
        exact renderOne_position_nonneg bp tick st pf i hbp hpf
      · rw [if_neg he] at hq'
        exact hpf id' q' hq'

/-- Every `prevFinalPosition` entry of every reached state is nonnegative
when every base entry is. -/
theorem effStateAt_prevFinal_nonneg (hash : String → ℕ) (catalog : List EventDefinition)
    (timeline : EventTimeline) (bp : List (List HorseBaseTick))
    (hbp : ∀ row ∈ bp, ∀ b ∈ row, 0 ≤ b.position) :
    ∀ n id q, (effStateAt hash catalog timeline bp n).prevFinal id = some q → 0 ≤ q := by
  intro n
  induction n with
  | zero =>
      intro id q hq
      have hq' : (initEffState bp).prevFinal id = some q := hq
      simp only [initEffState] at hq'
      split_ifs at hq' with hmem
      · cases hq'
        rcases hf : (bp.getD 0 []).find? (fun x => x.horseId == id) with _ | b
        · rw [hf]
          norm_num
        · have hb : b ∈ bp.getD 0 [] := List.mem_of_find?_eq_some hf
          rcases lt_or_ge 0 bp.length with h0 | h0
          · have hrow : bp.getD 0 [] ∈ bp := by
              rw [List.getD_eq_getElem _ _ h0]
              exact List.getElem_mem _
            rw [hf]
            simpa using hbp _ hrow _ hb
          · rw [List.getD_eq_default _ _ (by omega)] at hb
            exact absurd hb (by simp)
  | succ n ih =>
      intro id q hq
      rw [effStateAt_succ] at hq
      have hq' : (renderFrom bp n
          (effEventsStep hash catalog timeline bp n (effStateAt hash catalog timeline bp n)) 0
          (bp.getD n []).length
          (effEventsStep hash catalog timeline bp n (effStateAt hash catalog timeline bp n)).prevFinal).2
          id = some q := hq
      refine renderFrom_snd_nonneg bp n _ hbp _ 0 _ ?_ id q hq'
      intro id' q' h
      rw [effEventsStep_prevFinal] at h
      exact ih id' q' h

/-- Well-formedness of a base path matrix as `buildBaseHorsePaths` produces
it: distinct horse ids, and the same ids in the same order on every row. -/
def PathsWF (bp : List (List HorseBaseTick)) : Prop :=
  ((bp.getD 0 []).map (·.horseId)).Nodup ∧
  ∀ t, t < bp.length → (bp.getD t []).map (·.horseId) = (bp.getD 0 []).map (·.horseId)

/-- The state after the event loop of tick `t` on the states reached by the
effect applier. -/
def effEventsStateAt (hash : String → ℕ) (catalog : List EventDefinition)
    (timeline : EventTimeline) (bp : List (List HorseBaseTick)) (t : ℕ) : EffState :=
  effEventsStep hash catalog timeline bp t (effStateAt hash catalog timeline bp t)

/-- Distinctness of the ids of one row of a well-formed matrix. -/
theorem pathsWF_disj (bp : List (List HorseBaseTick)) (hwf : PathsWF bp) (t : ℕ)
    (ht : t < bp.length) :
    ∀ j1 j2, j1 < j2 → j2 < (bp.getD t []).length →
      rowIdAt bp t (0 + j1) ≠ rowIdAt bp t (0 + j2) := by
  intro j1 j2 hlt hj2
  have hj1 : j1 < (bp.getD t []).length := by omega
  have hnd : ((bp.getD t []).map (·.horseId)).Nodup := by
    rw [hwf.2 t ht]
    exact hwf.1
  have hb1 : j1 < ((bp.getD t []).map (·.horseId)).length := by simpa using hj1
  have hb2 : j2 < ((bp.getD t []).map (·.horseId)).length := by simpa using hj2
  rw [Nat.zero_add, Nat.zero_add]
  unfold rowIdAt
  rw [List.getD_eq_getElem _ _ hj1, List.getD_eq_getElem _ _ hj2]
  intro he
  have he2 : ((bp.getD t []).map (·.horseId))[j1] = ((bp.getD t []).map (·.horseId))[j2] := by
    rw [List.getElem_map, List.getElem_map]
    exact he
  have := hnd.getElem_inj_iff.mp he2
  omega

/-- The id at position `k` is the same on every row of a well-formed
matrix. -/
theorem rowIdAt_row_eq (bp : List (List HorseBaseTick)) (hwf : PathsWF bp) (t u k : ℕ)
    (ht : t < bp.length) (hu : u < bp.length) (hkt : k < (bp.getD t []).length)
    (hku : k < (bp.getD u []).length) :
    rowIdAt bp t k = rowIdAt bp u k := by
  have hb1 : k < ((bp.getD t []).map (·.horseId)).length := by simpa using hkt
  have hb2 : k < ((bp.getD u []).map (·.horseId)).length := by simpa using hku
  have h := (hwf.2 t ht).trans (hwf.2 u hu).symm
  unfold rowIdAt
  rw [List.getD_eq_getElem _ _ hkt, List.getD_eq_getElem _ _ hku]
  calc ((bp.getD t [])[k]).horseId
      = ((bp.getD t []).map (·.horseId))[k] := (List.getElem_map _).symm
    _ = ((bp.getD u []).map (·.horseId))[k] := List.getElem_of_eq h _
    _ = ((bp.getD u [])[k]).horseId := List.getElem_map _

/-- The `prevFinalPosition` entry of the `k`-th horse after tick `t` is the
final position the matrix records at `(t, k)`. -/
theorem effRow_tracks (hash : String → ℕ) (catalog : List EventDefinition)
    (timeline : EventTimeline) (bp : List (List HorseBaseTick)) (hwf : PathsWF bp)
    (t k : ℕ) (ht : t < bp.length) (hk : k < (bp.getD t []).length) :
    (effStateAt hash catalog timeline bp (t + 1)).prevFinal (rowIdAt bp t k) =
      some (((effRowAt hash catalog timeline bp t).getD k defaultFinal).position) := by
  rw [effStateAt_succ]
  have h := renderFrom_snd_tracks bp t (effEventsStateAt hash catalog timeline bp t)
    (bp.getD t []).length 0 (effEventsStateAt hash catalog timeline bp t).prevFinal
    (pathsWF_disj bp hwf t ht) k hk
  rw [Nat.zero_add] at h
  exact h

/-- Within the render loop, an entry at an index that is not inside an
active swap window is rendered against the original `prevFinalPosition`
map. -/
theorem renderFrom_fst_getD (bp : List (List HorseBaseTick)) (tick : ℕ) (st : EffState) :
    ∀ (n i : ℕ) (pf : String → Option ℚ) (k : ℕ), k < n →
    (∀ j1 j2, j1 < j2 → j2 < n → rowIdAt bp tick (i + j1) ≠ rowIdAt bp tick (i + j2)) →
    (∀ sw, st.swaps (rowIdAt bp tick (i + k)) = some sw →
      ¬ (sw.startTick ≤ tick ∧ tick < sw.endTick)) →
    ((renderFrom bp tick st i n pf).1).getD k defaultFinal = renderOne bp tick st pf (i + k) := by
  intro n
  induction n with
  | zero => intro i pf k hk _ _; exact absurd hk (by omega)
  | succ n ih =>
      intro i pf k hk hdisj hsw
      simp only [renderFrom]
      cases k with
      | zero => exact List.getD_cons_zero
      | succ k =>
          simp only [List.getD_cons_succ]
          rw [show i + (k + 1) = i + 1 + k by omega] at hsw ⊢
          rw [ih (i + 1) _ k (by omega) (fun j1 j2 hj hj2 => by
            have := hdisj (j1 + 1) (j2 + 1) (by omega) (by omega)
            rwa [show i + (j1 + 1) = i + 1 + j1 by omega,
                 show i + (j2 + 1) = i + 1 + j2 by omega] at this) hsw]
          refine renderOne_nopartner bp tick st _ pf (i + 1 + k) ?_ hsw
          have hne := hdisj 0 (k + 1) (by omega) (by omega)
          rw [show i + (k + 1) = i + 1 + k by omega] at hne
          exact if_neg (fun he => hne (by rw [Nat.add_zero]; exact he.symm))

/-- The frozen-step law of the effect applier: at a tick where the `k`-th
horse has no `hook_shot` or `rocket_boost` window starting and is not inside
an active `position_swap` window, and where either it is stunned or its base
path did not move, its final position repeats the previous tick's final
position.  (Removed horses hold their frozen value on both sides.) -/
theorem effRow_frozen_step (hash : String → ℕ) (catalog : List EventDefinition)
    (timeline : EventTimeline) (bp : List (List HorseBaseTick)) (hwf : PathsWF bp)
    (hbp : ∀ row ∈ bp, ∀ b ∈ row, 0 ≤ b.position) (t k : ℕ)
    (ht : t < bp.length) (ht0 : 0 < t) (hk : k < (bp.getD t []).length)
    (hhk : isEventActive (effEventsStateAt hash catalog timeline bp t).windows
      (rowIdAt bp t k) "hook_shot" t true = false)
    (hrk : isEventActive (effEventsStateAt hash catalog timeline bp t).windows
      (rowIdAt bp t k) "rocket_boost" t true = false)
    (hsw : ∀ sw, (effEventsStateAt hash catalog timeline bp t).swaps (rowIdAt bp t k) =
      some sw → ¬ (sw.startTick ≤ t ∧ t < sw.endTick))
    (hmd : ((effRowAt hash catalog timeline bp t).getD k defaultFinal).isStunned = true ∨
      ((bp.getD t []).getD k defaultBase).position =
        ((bp.getD (t - 1) []).getD k defaultBase).position) :
    ((effRowAt hash catalog timeline bp t).getD k defaultFinal).position =
      ((effRowAt hash catalog timeline bp (t - 1)).getD k defaultFinal).position := by
  have hlent : (bp.getD t []).length = (bp.getD 0 []).length := by
    have h := congrArg List.length (hwf.2 t ht)
    rw [List.length_map, List.length_map] at h
    exact h
  have hlent1 : (bp.getD (t - 1) []).length = (bp.getD 0 []).length := by
    have h := congrArg List.length (hwf.2 (t - 1) (by omega))
    rw [List.length_map, List.length_map] at h
    exact h
  have hkt1 : k < (bp.getD (t - 1) []).length := by omega
  -- 1. the row entry is `renderOne` against the post-events state
  have hrow : (effRowAt hash catalog timeline bp t).getD k defaultFinal =
      renderOne bp t (effEventsStateAt hash catalog timeline bp t)
        (effEventsStateAt hash catalog timeline bp t).prevFinal k := by
    have h := renderFrom_fst_getD bp t (effEventsStateAt hash catalog timeline bp t)
      (bp.getD t []).length 0 (effEventsStateAt hash catalog timeline bp t).prevFinal k hk
      (pathsWF_disj bp hwf t ht) (by rw [Nat.zero_add]; exact hsw)
    rw [Nat.zero_add] at h
    exact h
  -- 2. the previous final position is tracked in `prevFinalPosition`
  have htrack : (effEventsStateAt hash catalog timeline bp t).prevFinal (rowIdAt bp t k) =
      some (((effRowAt hash catalog timeline bp (t - 1)).getD k defaultFinal).position) := by
    have hpres : (effEventsStateAt hash catalog timeline bp t).prevFinal =
        (effStateAt hash catalog timeline bp t).prevFinal :=
      effEventsStep_prevFinal hash catalog timeline bp t _
    rw [hpres]
    have h := effRow_tracks hash catalog timeline bp hwf (t - 1) k (by omega) hkt1
    rw [show t - 1 + 1 = t by omega] at h
    rw [rowIdAt_row_eq bp hwf t (t - 1) k ht (by omega) hk hkt1]
    exact h
  -- 3. that value is nonnegative
  have hnn : 0 ≤ ((effRowAt hash catalog timeline bp (t - 1)).getD k defaultFinal).position := by
    have hpres : (effEventsStateAt hash catalog timeline bp t).prevFinal =
        (effStateAt hash catalog timeline bp t).prevFinal :=
      effEventsStep_prevFinal hash catalog timeline bp t _
    rw [hpres] at htrack
    exact effStateAt_prevFinal_nonneg hash catalog timeline bp hbp t _ _ htrack
  -- 4. unfold the render step
  unfold rowIdAt at htrack hhk hrk hsw
  rw [hrow] at hmd ⊢
  unfold renderOne at hmd ⊢
  dsimp only at hmd ⊢
  rw [htrack]
  simp only [hhk, hrk, Bool.false_eq_true, if_false]
  by_cases hrem : (effEventsStateAt hash catalog timeline bp t).removed
      (((bp.getD t []).getD k defaultBase).horseId) = true
  · rw [if_pos hrem]
    rfl
  · rw [if_neg hrem]
    rcases hswv : (effEventsStateAt hash catalog timeline bp t).swaps
      (((bp.getD t []).getD k defaultBase).horseId) with _ | sw
    · dsimp only
      by_cases hstun : (match (effEventsStateAt hash catalog timeline bp t).stunUntil
          (((bp.getD t []).getD k defaultBase).horseId) with
        | none => false
        | some e => decide (t < e)) = true
      · rw [if_pos hstun]
        rw [Option.getD_some]
        simp only [add_zero]
        exact max_eq_right hnn
      · rw [if_neg hstun]
        rcases hmd with hmd | hmd
        · exact absurd hmd hstun
        · rw [if_pos ht0, if_pos ht0, hmd, sub_self]
          rw [Option.getD_some]
          simp only [add_zero]
          exact max_eq_right hnn
    · dsimp only
      rw [if_neg (hsw sw hswv)]
      by_cases hstun : (match (effEventsStateAt hash catalog timeline bp t).stunUntil
          (((bp.getD t []).getD k defaultBase).horseId) with
        | none => false
        | some e => decide (t < e)) = true
      · rw [if_pos hstun]
        rw [Option.getD_some]
        simp only [add_zero]
        exact max_eq_right hnn
      · rw [if_neg hstun]
        rcases hmd with hmd | hmd
        · exact absurd hmd hstun
        · rw [if_pos ht0, if_pos ht0, hmd, sub_self]
          rw [Option.getD_some]
          simp only [add_zero]
          exact max_eq_right hnn

/-- A hash instantiation for inputs whose behaviour does not depend on the
hash value (single-horse targets take the hash modulo `1`). -/
def hash0 : String → ℕ := fun _ => 0

/-- A base path matrix with one horse parked exactly on the finish line
(`finishLine = trackLength · finishRatio = 1000` in the default
configuration) for two ticks — the shape `generateRaceTicks` produces after
the horse crosses. -/
def bpOvershoot : List (List HorseBaseTick) :=
  [[⟨"h", 1000, 0, 0⟩], [⟨"h", 1000, 0, 0⟩]]

/-- A timeline placing one `rocket_boost` instance at tick 1. -/
def tlOvershoot : EventTimeline := [(1, [⟨"rocket_boost", 1, "i1"⟩])]

/-- C2.  The claim, and the engine's own documentation and validation, say
`0 ≤ position ≤ finishLine` (tolerance `1e-9`) for every entry of the matrix
produced by `applyEventEffects` — but `applyEventEffects` clamps only from
below (`Math.max(0, …)`): a `rocket_boost` start adds `+20` with no upper
clamp, so a horse already at the finish line is pushed to `1020`, which the
engine's own `validateMotionUnitsAndSemantics` classifies as a fatal
overshoot (`hardInvariantViolation` is `true` on this matrix). -/
theorem applyEventEffects_position_exceeds_finishLine :
    (((applyEventEffects hash0 bpOvershoot tlOvershoot EVENT_CATALOG).getD 1 []).getD 0
        ⟨"", 0, 0, 0, false, false, []⟩).position = 1020 ∧
    (1000 : ℚ) + 1 / 1000000000 < 1020 ∧
    hardInvariantViolation 1000 (applyEventEffects hash0 bpOvershoot tlOvershoot EVENT_CATALOG)
      = true := by
  have hm : applyEventEffects hash0 bpOvershoot tlOvershoot EVENT_CATALOG =
      [[⟨"h", max 0 ((1000 : ℚ) + 0 + (0 + 0)), 0, 0, false, false, []⟩],
       [⟨"h", max 0 (max 0 ((1000 : ℚ) + 0 + (0 + 0)) + (1000 - 1000) + (0 + 20)), 0, 0,
          false, false, ["rocket_boost"]⟩]] := rfl
  rw [hm]
  refine ⟨?_, by norm_num, ?_⟩
  · simp only [List.getD, List.get?, Option.getD]
    norm_num [max_def]
  · norm_num [hardInvariantViolation, max_def]

/-- A base path matrix with two horses parked at `10` and `50` for two
ticks. -/
def bpSwap : List (List HorseBaseTick) :=
  [[⟨"a", 10, 0, 0⟩, ⟨"b", 50, 0, 0⟩], [⟨"a", 10, 0, 0⟩, ⟨"b", 50, 0, 0⟩]]

/-- A timeline with a `chain_reaction` at tick 0 (stunning every horse until
tick 20) and a `position_swap` at tick 1 (with `hash0`, the pair picked from
two horses is always `(0, 1)`). -/
def tlSwap : EventTimeline :=
  [(0, [⟨"chain_reaction", 0, "c1"⟩]), (1, [⟨"position_swap", 1, "s1"⟩])]

/-- C4, as stated, is false: at tick 1 horse `a` is stunned and has no
`hook_shot` or `rocket_boost` window starting at tick 1, yet its rendered
position jumps from `10` to `50`, because an active `position_swap` overlay
renders the swap partner's candidate position through its slot. -/
theorem stunned_horse_moves_under_swap :
    (((applyEventEffects hash0 bpSwap tlSwap EVENT_CATALOG).getD 1 []).getD 0
        defaultFinal).isStunned = true ∧
    isEventActive (effEventsStateAt hash0 EVENT_CATALOG tlSwap bpSwap 1).windows
      (rowIdAt bpSwap 1 0) "hook_shot" 1 true = false ∧
    isEventActive (effEventsStateAt hash0 EVENT_CATALOG tlSwap bpSwap 1).windows
      (rowIdAt bpSwap 1 0) "rocket_boost" 1 true = false ∧
    (((applyEventEffects hash0 bpSwap tlSwap EVENT_CATALOG).getD 1 []).getD 0
        defaultFinal).position ≠
      (((applyEventEffects hash0 bpSwap tlSwap EVENT_CATALOG).getD 0 []).getD 0
        defaultFinal).position := by
  refine ⟨rfl, rfl, rfl, ?_⟩
  have h1 : (((applyEventEffects hash0 bpSwap tlSwap EVENT_CATALOG).getD 1 []).getD 0
      defaultFinal).position =
      max 0 (max 0 ((50 : ℚ) + 0 + (0 + 0)) + 0 + (0 + 0)) := rfl
  have h0 : (((applyEventEffects hash0 bpSwap tlSwap EVENT_CATALOG).getD 0 []).getD 0
      defaultFinal).position = max 0 ((10 : ℚ) + 0 + (0 + 0)) := rfl
  rw [h1, h0]
  norm_num [max_def]

/-- C4.  Amended stun no-motion law: if `matrix[t][h].isStunned`, no
`hook_shot` or `rocket_boost` window for `h` has start tick exactly `t`, and
additionally `h` is not covered by an active `position_swap` window at `t`,
then `matrix[t][h].position = matrix[t-1][h].position` (for well-formed
nonnegative base paths). -/
theorem stun_no_motion_outside_swap (hash : String → ℕ) (catalog : List EventDefinition)
    (timeline : EventTimeline) (bp : List (List HorseBaseTick)) (hwf : PathsWF bp)
    (hbp : ∀ row ∈ bp, ∀ b ∈ row, 0 ≤ b.position) (t k : ℕ)
    (ht : t < bp.length) (ht0 : 0 < t) (hk : k < (bp.getD t []).length)
    (hstun : (((applyEventEffects hash bp timeline catalog).getD t []).getD k
      defaultFinal).isStunned = true)
    (hhk : isEventActive (effEventsStateAt hash catalog timeline bp t).windows
      (rowIdAt bp t k) "hook_shot" t true = false)
    (hrk : isEventActive (effEventsStateAt hash catalog timeline bp t).windows
      (rowIdAt bp t k) "rocket_boost" t true = false)
    (hsw : ∀ sw, (effEventsStateAt hash catalog timeline bp t).swaps (rowIdAt bp t k) =
      some sw → ¬ (sw.startTick ≤ t ∧ t < sw.endTick)) :
    (((applyEventEffects hash bp timeline catalog).getD t []).getD k defaultFinal).position =
      (((applyEventEffects hash bp timeline catalog).getD (t - 1) []).getD k
        defaultFinal).position := by
  rw [applyEventEffects_getD hash catalog timeline bp t ht] at hstun ⊢
  rw [applyEventEffects_getD hash catalog timeline bp (t - 1) (by omega)]
  exact effRow_frozen_step hash catalog timeline bp hwf hbp t k ht ht0 hk hhk hrk hsw
    (Or.inl hstun)

/-- A timeline with only the tick-0 `chain_reaction`. -/
def tlStun : EventTimeline := [(0, [⟨"chain_reaction", 0, "c1"⟩])]

/-- With no `position_swap` scheduled, the stunned horse `a` indeed holds its
position from tick 0 to tick 1. -/
theorem stun_no_motion_outside_swap_witness :
    (((applyEventEffects hash0 bpSwap tlStun EVENT_CATALOG).getD 1 []).getD 0
        defaultFinal).isStunned = true ∧
    (((applyEventEffects hash0 bpSwap tlStun EVENT_CATALOG).getD 1 []).getD 0
        defaultFinal).position =
      (((applyEventEffects hash0 bpSwap tlStun EVENT_CATALOG).getD 0 []).getD 0
        defaultFinal).position :=
  ⟨rfl, stun_no_motion_outside_swap hash0 EVENT_CATALOG tlStun bpSwap
    ⟨by decide, by decide⟩ (by decide) 1 0 (by decide) (by decide) (by decide) rfl rfl rfl
    (fun sw h => by
      have hn : (effEventsStateAt hash0 EVENT_CATALOG tlStun bpSwap 1).swaps
          (rowIdAt bpSwap 1 0) = none := rfl
      rw [hn] at h
      exact Option.noConfusion h)⟩

/-- Rows of a well-formed matrix all have the length of row 0. -/
theorem pathsWF_len (bp : List (List HorseBaseTick)) (hwf : PathsWF bp) (t : ℕ)
    (ht : t < bp.length) : (bp.getD t []).length = (bp.getD 0 []).length := by
  have h := congrArg List.length (hwf.2 t ht)
  rwa [List.length_map, List.length_map] at h

/-- A base path matrix with one horse parked at `1000` for two ticks. -/
def bpHook : List (List HorseBaseTick) :=
  [[⟨"h", 1000, 0, 0⟩], [⟨"h", 1000, 0, 0⟩]]

/-- A timeline placing one `hook_shot` instance at tick 1. -/
def tlHook : EventTimeline := [(1, [⟨"hook_shot", 1, "k1"⟩])]

/-- C3, as stated, is false: a horse whose position equals the finish line
(`1000` in the default configuration) at tick 0 is pulled back to `985` at
tick 1 by a `hook_shot` — `applyEventEffects` never freezes a finished
horse. -/
theorem finished_horse_pulled_back :
    (((applyEventEffects hash0 bpHook tlHook EVENT_CATALOG).getD 0 []).getD 0
        defaultFinal).position = 1000 ∧
    (((applyEventEffects hash0 bpHook tlHook EVENT_CATALOG).getD 1 []).getD 0
        defaultFinal).position ≠ 1000 := by
  have h0 : (((applyEventEffects hash0 bpHook tlHook EVENT_CATALOG).getD 0 []).getD 0
      defaultFinal).position = max 0 ((1000 : ℚ) + 0 + (0 + 0)) := rfl
  have h1 : (((applyEventEffects hash0 bpHook tlHook EVENT_CATALOG).getD 1 []).getD 0
      defaultFinal).position =
      max 0 (max 0 ((1000 : ℚ) + 0 + (0 + 0)) + ((1000 : ℚ) - 1000) +
        (-hookShotBackward + 0)) := rfl
  constructor
  · rw [h0]
    norm_num [max_def]
  · rw [h1]
    norm_num [hookShotBackward, max_def]

/-- Between ticks at which the `k`-th horse sees no starting `hook_shot` or
`rocket_boost`, no covering `position_swap`, and a constant base position,
its rendered position is constant. -/
theorem effRow_hold (hash : String → ℕ) (catalog : List EventDefinition)
    (timeline : EventTimeline) (bp : List (List HorseBaseTick)) (hwf : PathsWF bp)
    (hbp : ∀ row ∈ bp, ∀ b ∈ row, 0 ≤ b.position) (t k : ℕ)
    (hk0 : k < (bp.getD 0 []).length) :
    ∀ t', t ≤ t' → t' < bp.length →
    (∀ u, t < u → u ≤ t' →
      isEventActive (effEventsStateAt hash catalog timeline bp u).windows
        (rowIdAt bp u k) "hook_shot" u true = false ∧
      isEventActive (effEventsStateAt hash catalog timeline bp u).windows
        (rowIdAt bp u k) "rocket_boost" u true = false ∧
      (∀ sw, (effEventsStateAt hash catalog timeline bp u).swaps (rowIdAt bp u k) =
        some sw → ¬ (sw.startTick ≤ u ∧ u < sw.endTick)) ∧
      ((bp.getD u []).getD k defaultBase).position =
        ((bp.getD (u - 1) []).getD k defaultBase).position) →
    ((effRowAt hash catalog timeline bp t').getD k defaultFinal).position =
      ((effRowAt hash catalog timeline bp t).getD k defaultFinal).position := by
  intro t' hle
  induction t', hle using Nat.le_induction with
  | base => intro _ _; rfl
  | succ m hm ih =>
      intro hlt hq
      have hmlt : m < bp.length := by omega
      have h1 := effRow_frozen_step hash catalog timeline bp hwf hbp (m + 1) k hlt (by omega)
        (by rw [pathsWF_len bp hwf (m + 1) hlt]; exact hk0)
        (hq (m + 1) (by omega) (by omega)).1
        (hq (m + 1) (by omega) (by omega)).2.1
        (hq (m + 1) (by omega) (by omega)).2.2.1
        (Or.inr (hq (m + 1) (by omega) (by omega)).2.2.2)
      rw [Nat.add_sub_cancel] at h1
      rw [h1]
      exact ih hmlt (fun u hu1 hu2 => hq u hu1 (by omega))

/-- C3.  Amended finish monotonicity: a horse whose position equals the
finish line at tick `t` still has it at every later tick `t'` — provided
that at every tick in between no `hook_shot` or `rocket_boost` window starts
for it, no `position_swap` window covers it, and its base path is constant
(as it is after a crossing in `generateRaceTicks`). -/
theorem finish_position_persists_without_interference (hash : String → ℕ)
    (catalog : List EventDefinition) (timeline : EventTimeline)
    (bp : List (List HorseBaseTick)) (hwf : PathsWF bp)
    (hbp : ∀ row ∈ bp, ∀ b ∈ row, 0 ≤ b.position) (t k t' : ℕ) (L : ℚ)
    (hk0 : k < (bp.getD 0 []).length) (hle : t ≤ t') (ht' : t' < bp.length)
    (hq : ∀ u, t < u → u ≤ t' →
      isEventActive (effEventsStateAt hash catalog timeline bp u).windows
        (rowIdAt bp u k) "hook_shot" u true = false ∧
      isEventActive (effEventsStateAt hash catalog timeline bp u).windows
        (rowIdAt bp u k) "rocket_boost" u true = false ∧
      (∀ sw, (effEventsStateAt hash catalog timeline bp u).swaps (rowIdAt bp u k) =
        some sw → ¬ (sw.startTick ≤ u ∧ u < sw.endTick)) ∧
      ((bp.getD u []).getD k defaultBase).position =
        ((bp.getD (u - 1) []).getD k defaultBase).position)
    (hfin : (((applyEventEffects hash bp timeline catalog).getD t []).getD k
      defaultFinal).position = L) :
    (((applyEventEffects hash bp timeline catalog).getD t' []).getD k
      defaultFinal).position = L := by
  rw [applyEventEffects_getD hash catalog timeline bp t' ht']
  rw [applyEventEffects_getD hash catalog timeline bp t (by omega)] at hfin
  rw [effRow_hold hash catalog timeline bp hwf hbp t k hk0 t' hle ht' hq]
  exact hfin

/-- The empty timeline. -/
def tlNil : EventTimeline := []

/-- With no events scheduled, the horse parked on the finish line at tick 0
is still there at tick 1. -/
theorem finish_position_persists_witness :
    (((applyEventEffects hash0 bpHook tlNil EVENT_CATALOG).getD 1 []).getD 0
        defaultFinal).position = 1000 :=
  finish_position_persists_without_interference hash0 EVENT_CATALOG tlNil bpHook
    ⟨by decide, by decide⟩ (by decide) 0 0 1 1000 (by decide) (by decide) (by decide)
    (fun u hu1 hu2 => by
      have hu : u = 1 := by omega
      subst hu
      refine ⟨rfl, rfl, fun sw h => ?_, rfl⟩
      have hn : (effEventsStateAt hash0 EVENT_CATALOG tlNil bpHook 1).swaps
          (rowIdAt bpHook 1 0) = none := rfl
      rw [hn] at h
      exact Option.noConfusion h)
    (by
      have h0 : (((applyEventEffects hash0 bpHook tlNil EVENT_CATALOG).getD 0 []).getD 0
          defaultFinal).position = max 0 ((1000 : ℚ) + 0 + (0 + 0)) := rfl
      rw [h0]
      norm_num [max_def])

/-- The crossers of one row as the claim counts them: every horse at or past
the finish line, removal ignored. -/
def specCrossersAt (row : List FinalHorseStateTick) (L : ℚ) : List String :=
  (row.filter (fun s => decide (L ≤ s.position))).map (·.horseId)

/-- The earliest tick at which any horse is at or past the finish line,
with that tick's crossers (the claim's reading of the scan). -/
def specFirstCrossing (L : ℚ) : List (List FinalHorseStateTick) → ℕ → Option (ℕ × List String)
  | [], _ => none
  | row :: rest, t =>
      if (specCrossersAt row L).isEmpty then specFirstCrossing L rest (t + 1)
      else some (t, specCrossersAt row L)

/-- The claim's winner id: the lexicographically smallest id among the
crossers of the earliest crossing tick. -/
def specWinnerId (matrix : List (List FinalHorseStateTick)) (L : ℚ) : Option String :=
  (specFirstCrossing L matrix 0).map (fun p => (p.2.insertionSort (· ≤ ·)).headD "")

/-- An empty spec-crosser list means nobody is at the finish. -/
theorem specCrossersAt_isEmpty (row : List FinalHorseStateTick) (L : ℚ)
    (h : (specCrossersAt row L).isEmpty = true) : ∀ s ∈ row, ¬ L ≤ s.position := by
  intro s hs hle
  unfold specCrossersAt at h
  rw [List.isEmpty_iff, List.map_eq_nil_iff, List.filter_eq_nil_iff] at h
  exact h s hs (decide_eq_true hle)

/-- The code's crosser list is a sublist of the claim's, so it is empty
whenever the claim's is. -/
theorem crossersAt_empty_of_spec (row : List FinalHorseStateTick) (L : ℚ)
    (h : (specCrossersAt row L).isEmpty = true) : (crossersAt row L).isEmpty = true := by
  have hall := specCrossersAt_isEmpty row L h
  unfold crossersAt
  rw [List.isEmpty_iff, List.map_eq_nil_iff, List.filter_eq_nil_iff]
  intro s hs
  have hd : decide (L ≤ s.position) = false := decide_eq_false (hall s hs)
  simp [hd]

/-- Under the removal-freeze invariant, `determineWinner`'s scan (which skips
removed horses) agrees row by row with the claim's scan. -/
theorem firstCrossing_eq_spec (matrix : List (List FinalHorseStateTick)) (L : ℚ)
    (hfreeze : ∀ t k, t + 1 < matrix.length → k < (matrix.getD (t + 1) []).length →
      ((matrix.getD (t + 1) []).getD k defaultFinal).isRemoved = true →
      k < (matrix.getD t []).length ∧
      ((matrix.getD (t + 1) []).getD k defaultFinal).position =
        ((matrix.getD t []).getD k defaultFinal).position)
    (h0 : ∀ s ∈ matrix.getD 0 [], s.isRemoved = true → ¬ L ≤ s.position) :
    ∀ rest t, rest = matrix.drop t →
    (t = 0 ∨ ∀ s ∈ matrix.getD (t - 1) [], ¬ L ≤ s.position) →
    firstCrossing L rest t = specFirstCrossing L rest t := by
  intro rest
  induction rest with
  | nil => intro t _ _; rfl
  | cons row rest' ih =>
      intro t hdrop hinv
      have hlen : t < matrix.length := by
        have h := congrArg List.length hdrop
        rw [List.length_drop] at h
        simp at h
        omega
      have hcons : matrix[t] :: matrix.drop (t + 1) = row :: rest' :=
        (List.drop_eq_getElem_cons hlen).symm.trans hdrop.symm
      have hrow : matrix[t] = row := ((List.cons.injEq _ _ _ _).mp hcons).1
      have hrest : matrix.drop (t + 1) = rest' := ((List.cons.injEq _ _ _ _).mp hcons).2
      have hrowD : matrix.getD t [] = row := by
        rw [List.getD_eq_getElem _ _ hlen, hrow]
      by_cases hempty : (specCrossersAt row L).isEmpty = true
      · have hc := crossersAt_empty_of_spec row L hempty
        simp only [firstCrossing, specFirstCrossing]
        rw [if_pos hc, if_pos hempty]
        refine ih (t + 1) hrest.symm (Or.inr ?_)
        simp only [Nat.add_sub_cancel]
        rw [hrowD]
        exact specCrossersAt_isEmpty row L hempty
      · have hnorem : ∀ s ∈ row, L ≤ s.position → s.isRemoved = false := by
          intro s hs hpos
          by_contra hrem'
          have hrem : s.isRemoved = true := by
            cases hb : s.isRemoved
            · exact absurd hb hrem'
            · rfl
          obtain ⟨k, hk, hgetk⟩ := List.mem_iff_getElem.mp hs
          rcases t with _ | t0
          · exact h0 s (by rw [hrowD]; exact hs) hrem hpos
          · have hk1 : k < (matrix.getD (t0 + 1) []).length := by rw [hrowD]; exact hk
            have hkD : (matrix.getD (t0 + 1) []).getD k defaultFinal = s := by
              rw [List.getD_eq_getElem _ _ hk1]
              exact (List.getElem_of_eq hrowD hk1).trans hgetk
            have h2 := hfreeze t0 k hlen hk1 (by rw [hkD]; exact hrem)
            rcases hinv with h00 | hprev
            · exact Nat.succ_ne_zero t0 h00
            · simp only [Nat.add_sub_cancel] at hprev
              refine hprev ((matrix.getD t0 []).getD k defaultFinal) ?_ ?_
              · rw [List.getD_eq_getElem _ _ h2.1]
                exact List.getElem_mem _
              · calc L ≤ s.position := hpos
                  _ = ((matrix.getD (t0 + 1) []).getD k defaultFinal).position := by rw [hkD]
                  _ = ((matrix.getD t0 []).getD k defaultFinal).position := h2.2
        have hfe : crossersAt row L = specCrossersAt row L := by
          unfold crossersAt specCrossersAt
          congr 1
          refine List.filter_congr ?_
          intro s hs
          cases hd : decide (L ≤ s.position)
          · simp [hd]
          · simp [hd, hnorem s hs (of_decide_eq_true hd)]
        simp only [firstCrossing, specFirstCrossing]
        rw [hfe, if_neg hempty, if_neg hempty]

/-- The claim's scan fires whenever some horse somewhere is at the finish. -/
theorem specFirstCrossing_isSome (L : ℚ) :
    ∀ (rows : List (List FinalHorseStateTick)) (t : ℕ),
      (∃ row ∈ rows, ∃ s ∈ row, L ≤ s.position) →
      (specFirstCrossing L rows t).isSome = true := by
  intro rows
  induction rows with
  | nil =>
      intro t h
      obtain ⟨row, hrow, -⟩ := h
      exact absurd hrow (List.not_mem_nil _)
  | cons row rest ih =>
      intro t h
      simp only [specFirstCrossing]
      by_cases hempty : (specCrossersAt row L).isEmpty = true
      · rw [if_pos hempty]
        obtain ⟨r, hr, s, hs, hle⟩ := h
        rcases List.mem_cons.mp hr with hr | hr
        · exact absurd hle (specCrossersAt_isEmpty row L hempty s (hr ▸ hs))
        · exact ih (t + 1) ⟨r, hr, s, hs, hle⟩
      · rw [if_neg hempty]
        rfl

/-- C5.  On a matrix satisfying the removal-freeze invariant that
`applyEventEffects` maintains (a removed entry repeats the previous tick's
position) and whose tick-0 row has no removed crosser, `determineWinner`
returns exactly the claim's winner: the lexicographically smallest horse id
among the horses at or past the finish line at the earliest tick at which
any horse is at or past it — and that winner exists as soon as any horse
reaches the finish. -/
theorem determineWinner_lex_smallest (matrix : List (List FinalHorseStateTick)) (L dt : ℚ)
    (hfreeze : ∀ t k, t + 1 < matrix.length → k < (matrix.getD (t + 1) []).length →
      ((matrix.getD (t + 1) []).getD k defaultFinal).isRemoved = true →
      k < (matrix.getD t []).length ∧
      ((matrix.getD (t + 1) []).getD k defaultFinal).position =
        ((matrix.getD t []).getD k defaultFinal).position)
    (h0 : ∀ s ∈ matrix.getD 0 [], s.isRemoved = true → ¬ L ≤ s.position)
    (hsome : ∃ row ∈ matrix, ∃ s ∈ row, L ≤ s.position) :
    (determineWinner matrix L dt).map (·.horseId) = specWinnerId matrix L ∧
    (specWinnerId matrix L).isSome = true := by
  constructor
  · unfold determineWinner specWinnerId
    rw [firstCrossing_eq_spec matrix L hfreeze h0 matrix 0 rfl (Or.inl rfl)]
    cases specFirstCrossing L matrix 0 <;> rfl
  · unfold specWinnerId
    have h := specFirstCrossing_isSome L matrix 0 hsome
    rcases hsp : specFirstCrossing L matrix 0 with _ | p
    · rw [hsp] at h
      exact absurd h (by simp)
    · rfl

/-- A concrete final state matrix: two horses short of the line at tick 0,
both crossing at tick 1, nobody removed. -/
def mxWin : List (List FinalHorseStateTick) :=
  [[⟨"b", 10, 0, 0, false, false, []⟩, ⟨"a", 20, 0, 0, false, false, []⟩],
   [⟨"b", 1000, 0, 0, false, false, []⟩, ⟨"a", 1000, 0, 0, false, false, []⟩]]

/-- On the concrete matrix both hypotheses hold and `determineWinner` picks
the claim's winner (`"a"`, the smaller id of the two tick-1 crossers). -/
theorem determineWinner_lex_smallest_witness :
    (determineWinner mxWin 1000 2).map (·.horseId) = specWinnerId mxWin 1000 ∧
    (specWinnerId mxWin 1000).isSome = true :=
  determineWinner_lex_smallest mxWin 1000 2
    (by
      intro t k ht hk hrem
      have hl : mxWin.length = 2 := rfl
      rw [hl] at ht
      have ht0 : t = 0 := by omega
      subst ht0
      have hk2 : (mxWin.getD 1 []).length = 2 := rfl
      rw [hk2] at hk
      interval_cases k <;> exact absurd hrem (by decide))
    (by decide) (by decide)

/-- Every placed instance's tick is at most the `lastPlacedById` tick of its
id. -/
def PlacedBounded (st : PlacementState) : Prop :=
  ∀ t e, e ∈ st.placed t → ∃ last, st.lastPlacedById e.id = some last ∧ t ≤ last

/-- Any two placed instances of one id are at least `MIN_SPACING_TICKS`
apart. -/
def PlacedSpaced (st : PlacementState) : Prop :=
  ∀ t1 t2 e1 e2, e1 ∈ st.placed t1 → e2 ∈ st.placed t2 → e1.id = e2.id → t1 < t2 →
    t1 + MIN_SPACING_TICKS ≤ t2

/-- The two placement invariants survive one actual placement. -/
theorem place_state_preserves (st : PlacementState) (c : Candidate) (inst : EventInstance)
    (hb : PlacedBounded st) (hs : PlacedSpaced st) (hinstid : inst.id = c.id)
    (hspace : ∀ last, st.lastPlacedById c.id = some last →
      last + MIN_SPACING_TICKS ≤ c.tickIndex) :
    PlacedBounded
      ⟨fun t => if t = c.tickIndex then st.placed c.tickIndex ++ [inst] else st.placed t,
        if c.tickIndex ∈ st.placedTicks then st.placedTicks else st.placedTicks ++ [c.tickIndex],
        fun id => if id = c.id then some c.tickIndex else st.lastPlacedById id⟩ ∧
    PlacedSpaced
      ⟨fun t => if t = c.tickIndex then st.placed c.tickIndex ++ [inst] else st.placed t,
        if c.tickIndex ∈ st.placedTicks then st.placedTicks else st.placedTicks ++ [c.tickIndex],
        fun id => if id = c.id then some c.tickIndex else st.lastPlacedById id⟩ := by
  constructor
  · intro t e he
    dsimp only at he ⊢
    by_cases ht : t = c.tickIndex
    · rw [if_pos ht] at he
      rcases List.mem_append.mp he with h | h
      · subst ht
        by_cases hid : e.id = c.id
        · exact ⟨c.tickIndex, by rw [if_pos hid], le_refl _⟩
        · obtain ⟨last, hl, hle⟩ := hb c.tickIndex e h
          exact ⟨last, by rw [if_neg hid]; exact hl, hle⟩
      · have he' : e = inst := List.mem_singleton.mp h
        subst he'
        refine ⟨c.tickIndex, ?_, le_of_eq ht⟩
        rw [hinstid, if_pos rfl]
    · rw [if_neg ht] at he
      obtain ⟨last, hl, hle⟩ := hb t e he
      by_cases hid : e.id = c.id
      · refine ⟨c.tickIndex, by rw [if_pos hid], ?_⟩
        rw [hid] at hl
        have := hspace last hl
        omega
      · exact ⟨last, by rw [if_neg hid]; exact hl, hle⟩
  · intro t1 t2 e1 e2 h1 h2 hid hlt
    dsimp only at h1 h2
    have d1 : e1 ∈ st.placed t1 ∨ (t1 = c.tickIndex ∧ e1 = inst) := by
      by_cases ht : t1 = c.tickIndex
      · rw [if_pos ht] at h1
        rcases List.mem_append.mp h1 with h | h
        · exact Or.inl (by rw [ht]; exact h)
        · exact Or.inr ⟨ht, List.mem_singleton.mp h⟩
      · rw [if_neg ht] at h1
        exact Or.inl h1
    have d2 : e2 ∈ st.placed t2 ∨ (t2 = c.tickIndex ∧ e2 = inst) := by
      by_cases ht : t2 = c.tickIndex
      · rw [if_pos ht] at h2
        rcases List.mem_append.mp h2 with h | h
        · exact Or.inl (by rw [ht]; exact h)
        · exact Or.inr ⟨ht, List.mem_singleton.mp h⟩
      · rw [if_neg ht] at h2
        exact Or.inl h2
    rcases d1 with d1 | ⟨ht1, he1⟩
    · rcases d2 with d2 | ⟨ht2, he2⟩
      · exact hs t1 t2 e1 e2 d1 d2 hid hlt
      · subst ht2
        subst he2
        obtain ⟨last, hl, hle⟩ := hb t1 e1 d1
        rw [hid.trans hinstid] at hl
        have := hspace last hl
        omega
    · rcases d2 with d2 | ⟨ht2, he2⟩
      · subst ht1
        subst he1
        obtain ⟨last, hl, hle⟩ := hb t2 e2 d2
        rw [(hid.symm.trans hinstid)] at hl
        have := hspace last hl
        omega
      · omega
/-- One step of the placement loop preserves both invariants. -/
theorem placeCandidate_preserves (hash : String → ℕ) (seed : ℕ)
    (catalog : List EventDefinition) (st : PlacementState) (c : Candidate)
    (hb : PlacedBounded st) (hs : PlacedSpaced st) :
    PlacedBounded (placeCandidate hash seed catalog st c) ∧
    PlacedSpaced (placeCandidate hash seed catalog st c) := by
  unfold placeCandidate
  by_cases h1 : c.weight = 0
  · rw [if_pos h1]
    exact ⟨hb, hs⟩
  rw [if_neg h1]
  by_cases h2 : ¬ spacingOk st c = true
  · rw [if_pos h2]
    exact ⟨hb, hs⟩
  rw [if_neg h2]
  have hsp : spacingOk st c = true := not_not.mp h2
  dsimp only
  by_cases h3 : c.defn.maxConcurrent ≤
      ((st.placed c.tickIndex).filter (fun e => e.id == c.id)).length
  · rw [if_pos h3]
    exact ⟨hb, hs⟩
  rw [if_neg h3]
  by_cases h4 : (st.placed c.tickIndex).any (fun e =>
      c.defn.conflictsWith.contains e.id ||
      ((conflictsOf catalog e.id).getD []).contains c.id) = true
  · rw [if_pos h4]
    exact ⟨hb, hs⟩
  rw [if_neg h4]
  have hspace : ∀ last, st.lastPlacedById c.id = some last →
      last + MIN_SPACING_TICKS ≤ c.tickIndex := by
    intro last hl
    unfold spacingOk at hsp
    rw [hl] at hsp
    have h := of_decide_eq_true hsp
    simp only [MIN_SPACING_TICKS] at h ⊢
    omega
  exact place_state_preserves st c _ hb hs rfl hspace

/-- The placement fold preserves both invariants from the empty state. -/
theorem foldl_place_inv (hash : String → ℕ) (seed : ℕ) (catalog : List EventDefinition) :
    ∀ (cs : List Candidate) (st : PlacementState), PlacedBounded st → PlacedSpaced st →
      PlacedBounded (cs.foldl (placeCandidate hash seed catalog) st) ∧
      PlacedSpaced (cs.foldl (placeCandidate hash seed catalog) st) := by
  intro cs
  induction cs with
  | nil => intro st hb hs; exact ⟨hb, hs⟩
  | cons c rest ih =>
      intro st hb hs
      have h := placeCandidate_preserves hash seed catalog st c hb hs
      exact ih _ h.1 h.2

/-- The placement state `generateEventTimeline` freezes into its result. -/
def timelineFinal (hash : String → ℕ) (seed dur : ℕ) (catalog : List EventDefinition) :
    PlacementState :=
  ((buildCandidates (fun k => mulberryVal (seed % U32) k) dur catalog 0).insertionSort
    (fun a b => candLE a b = true)).foldl (placeCandidate hash seed catalog) initPlacement

/-- `generateEventTimeline` emits exactly the final placement state's map. -/
theorem generateEventTimeline_eq (hash : String → ℕ) (seed dur : ℕ)
    (catalog : List EventDefinition) :
    generateEventTimeline hash seed dur catalog =
      ((timelineFinal hash seed dur catalog).placedTicks.insertionSort (· ≤ ·)).map
        (fun t => (t, (timelineFinal hash seed dur catalog).placed t)) := rfl

/-- A member of a tick's bucket in an emitted timeline is a member of the
backing map at that tick. -/
theorem timelineGet_map_mem (g : ℕ → List EventInstance) (l : List ℕ) (t : ℕ)
    (e : EventInstance) (he : e ∈ timelineGet (l.map (fun u => (u, g u))) t) : e ∈ g t := by
  unfold timelineGet at he
  rcases hf : (l.map (fun u => (u, g u))).find? (fun p => p.1 == t) with _ | p
  · rw [hf] at he
    exact absurd he (List.not_mem_nil _)
  · rw [hf] at he
    have hp := List.mem_of_find?_eq_some hf
    have hpt := List.find?_some hf
    obtain ⟨u, hu, hup⟩ := List.mem_map.mp hp
    rw [← hup] at he hpt
    have hut : u = t := by simpa using hpt
    subst hut
    simpa using he

/-- C6.  Scheduler spacing: in any timeline produced by
`generateEventTimeline`, two instances sharing an event id that sit at
different ticks are at least `MIN_SPACING_TICKS` ticks apart (so in
particular consecutive placed instances of one id are). -/
theorem generateEventTimeline_min_spacing (hash : String → ℕ) (seed dur : ℕ)
    (catalog : List EventDefinition) (t1 t2 : ℕ) (e1 e2 : EventInstance)
    (h1 : e1 ∈ timelineGet (generateEventTimeline hash seed dur catalog) t1)
    (h2 : e2 ∈ timelineGet (generateEventTimeline hash seed dur catalog) t2)
    (hid : e1.id = e2.id) (hlt : t1 < t2) :
    t1 + MIN_SPACING_TICKS ≤ t2 := by
  rw [generateEventTimeline_eq] at h1 h2
  have hm1 := timelineGet_map_mem (timelineFinal hash seed dur catalog).placed _ t1 e1 h1
  have hm2 := timelineGet_map_mem (timelineFinal hash seed dur catalog).placed _ t2 e2 h2
  have hinv := foldl_place_inv hash seed catalog
    ((buildCandidates (fun k => mulberryVal (seed % U32) k) dur catalog 0).insertionSort
      (fun a b => candLE a b = true)) initPlacement
    (fun t e he => absurd he (List.not_mem_nil _))
    (fun u1 u2 f1 f2 hh _ _ _ => absurd hh (List.not_mem_nil _))
  exact hinv.2 t1 t2 e1 e2 hm1 hm2 hid hlt

/-- A one-entry catalog: event `"e"`, two occurrences per race. -/
def catSpacing : List EventDefinition :=
  [⟨"e", .powerup, 5, 2, 1, [], false, false, false⟩]

/-- With seed 1 and 50 ticks, the scheduler places `"e"` at ticks 0 and 31:
the spacing bound holds there. -/
theorem generateEventTimeline_min_spacing_witness :
    (⟨"e", 0, "evt-00000000"⟩ : EventInstance) ∈
      timelineGet (generateEventTimeline hash0 1 50 catSpacing) 0 ∧
    (⟨"e", 31, "evt-00000000"⟩ : EventInstance) ∈
      timelineGet (generateEventTimeline hash0 1 50 catSpacing) 31 ∧
    0 + MIN_SPACING_TICKS ≤ 31 :=
  ⟨by decide, by decide,
    generateEventTimeline_min_spacing hash0 1 50 catSpacing 0 31
      ⟨"e", 0, "evt-00000000"⟩ ⟨"e", 31, "evt-00000000"⟩ (by decide) (by decide) rfl
      (by decide)⟩

end Spec2Proof
